import Mathlib

/-!
# Verification of the e-commerce analytics feature/scoring pipeline

Shallow embedding, in Lean 4, of the data model and the operations of the
repository (data cleaner, customer RFM/CLV feature engineering, market
expansion scoring, seasonal demand forecasting), together with theorems
settling the specification claims about them.

Conventions of the embedding:
* pandas dataframes become lists of Lean structures (one structure per table);
* nullable cells become `Option` values (`none` = NaN/NaT);
* monetary amounts and scores are `ℚ`; day counts, years, months are `ℤ`;
* Python `%` and `//` are floor-mod/floor-div; they are embedded as
  `Int.emod` / `Int.ediv`, which agree with Python for the operand signs
  that occur here;
* code that can raise becomes a function into `Except String _`.
-/

namespace Ecom

/-! ## Customer RFM scoring (`src/feature_engineer.py`, `create_customer_behavior_features`)

`pd.qcut(col, q=5, labels=L)` assigns to every row one of the five labels of
`L`, by quantile bin.  The bin boundaries are data-dependent, but the label
assigned to a row is always `L[bin]` for some bin index; we embed exactly that
label lookup.  The recency labels are `[5,4,3,2,1]` (fewer days = higher
score), the frequency/monetary labels are `[1,2,3,4,5]`.
-/

/-- The five labels passed to `pd.qcut` for the recency score
(`labels=[5, 4, 3, 2, 1]`, lower days-since-last-order = higher score). -/
def recency_labels : List ℤ := [5, 4, 3, 2, 1]

/-- The five labels passed to `pd.qcut` for the frequency score
(`labels=[1, 2, 3, 4, 5]`). -/
def frequency_labels : List ℤ := [1, 2, 3, 4, 5]

/-- The five labels passed to `pd.qcut` for the monetary score
(`labels=[1, 2, 3, 4, 5]`). -/
def monetary_labels : List ℤ := [1, 2, 3, 4, 5]

/-- `pd.qcut(col, q=5, labels=L).astype(int)`: the row falling into quantile
bin `i` receives the integer label `L[i]`. -/
def qcut_label (labels : List ℤ) (bin : Fin labels.length) : ℤ :=
  labels.get bin

/-- Recency score of a customer whose days-since-last-order falls in
quantile bin `bin` (bin 0 = fewest days). -/
def recency_score (bin : Fin 5) : ℤ := qcut_label recency_labels bin

/-- Frequency score of a customer whose (rank-broken) total_orders falls in
quantile bin `bin`. -/
def frequency_score (bin : Fin 5) : ℤ := qcut_label frequency_labels bin

/-- Monetary score of a customer whose (rank-broken) total_revenue falls in
quantile bin `bin`. -/
def monetary_score (bin : Fin 5) : ℤ := qcut_label monetary_labels bin

/-- The RFM segment decision table `categorize_customer` of
`create_customer_behavior_features` (src/feature_engineer.py), verbatim:
a chain of threshold tests on the recency/frequency/monetary scores with a
final `else` returning "Others". -/
def categorize_customer (r f m : ℤ) : String :=
  if r ≥ 4 ∧ f ≥ 4 ∧ m ≥ 4 then "Champions"
  else if r ≥ 3 ∧ f ≥ 3 ∧ m ≥ 3 then "Loyal Customers"
  else if r ≥ 4 ∧ f ≤ 2 then "New Customers"
  else if r ≥ 3 ∧ f ≥ 3 ∧ m ≤ 2 then "Potential Loyalists"
  else if r ≤ 2 ∧ f ≥ 3 ∧ m ≥ 3 then "At Risk"
  else if r ≤ 2 ∧ f ≤ 2 ∧ m ≥ 3 then "Cannot Lose Them"
  else if r ≥ 3 ∧ f ≤ 2 ∧ m ≤ 2 then "Promising"
  else if r ≤ 2 ∧ f ≤ 2 ∧ m ≤ 2 then "Lost"
  else "Others"

/-- The nine customer segments named by the specification. -/
def nine_segments : List String :=
  ["Champions", "Loyal Customers", "New Customers", "Potential Loyalists",
   "At Risk", "Cannot Lose Them", "Promising", "Lost", "Others"]

/-! ## Customer lifetime value (`src/feature_engineer.py`)

`customer_lifetime_days` is an integer day count (`.dt.days` of the span
between first and last order).  `order_frequency_per_month` divides total
orders by the lifetime expressed in months (30.44 days per month), except for
single-date customers (`lifetime = 0`), where it is the raw order count.
`estimated_clv` multiplies average order value, the monthly order frequency,
and `np.maximum(lifetime_months, 1)`.
-/

/-- `customer_lifetime_days / 30.44`: a customer lifetime in months. -/
def lifetime_months (days : ℤ) : ℚ := (days : ℚ) / (30.44 : ℚ)

/-- `order_frequency_per_month` (src/feature_engineer.py): orders per month
when `customer_lifetime_days > 0`, otherwise the raw order count. -/
def order_frequency_per_month (days : ℤ) (total_orders : ℚ) : ℚ :=
  if 0 < days then total_orders / lifetime_months days else total_orders

/-- `estimated_clv` (src/feature_engineer.py): average order value ×
monthly order frequency × `np.maximum(lifetime_months, 1)`. -/
def estimated_clv (days : ℤ) (total_orders avg_order_value : ℚ) : ℚ :=
  avg_order_value * order_frequency_per_month days total_orders *
    max (lifetime_months days) 1

/-! ## Market expansion scoring (`src/market_expansion.py`,
`generate_expansion_opportunity_matrix`) -/

/-- `market_size_score`: population share of the max-population state,
blended 60/40 with the GDP-per-capita share of the max-GDP state. -/
def market_size_score (pop max_pop gdp max_gdp : ℚ) : ℚ :=
  pop / max_pop * 0.6 + gdp / max_gdp * 0.4

/-- The untapped-revenue component of the growth score
(`untapped_revenue_potential / max`, guarded to `0` when the max is `0`). -/
def untapped_score (untapped max_untapped : ℚ) : ℚ :=
  if max_untapped > 0 then untapped / max_untapped else 0

/-- The inverted-penetration component of the growth score
(`1 - penetration_rate / max`, guarded to `0` when the max is `0`). -/
def penetration_growth_score (pen max_pen : ℚ) : ℚ :=
  if max_pen > 0 then 1 - pen / max_pen else 0

/-- `growth_potential_score`: 70/30 blend of the untapped-revenue share and
the inverted penetration rate. -/
def growth_potential_score (untapped max_untapped pen max_pen : ℚ) : ℚ :=
  untapped_score untapped max_untapped * 0.7 +
    penetration_growth_score pen max_pen * 0.3

/-- The delivery component of the operational score
(`1 - avg_delivery_days / max`, guarded to `1.0` when the max is `0`). -/
def delivery_score (days max_days : ℚ) : ℚ :=
  if max_days > 0 then 1 - days / max_days else 1

/-- `operational_feasibility_score`: 60/40 blend of the delivery score and
the urban rate (infrastructure proxy). -/
def operational_feasibility_score (days max_days urban_rate : ℚ) : ℚ :=
  delivery_score days max_days * 0.6 + urban_rate * 0.4

/-- `competitive_score`: the seller efficiency score with
`fillna(0.5)` for states that have no sellers. -/
def competitive_score (seller_efficiency : Option ℚ) : ℚ :=
  seller_efficiency.getD 0.5

/-- `combined_opportunity_score`: the weighted fold over the four sub-scores,
in the order of the `weights` dict of the source (market size 0.35, growth
potential 0.30, operational feasibility 0.20, competitive 0.15), starting
from `0` exactly as the source loop does. -/
def combined_opportunity_score (ms gp opf cs : ℚ) : ℚ :=
  0 + ms * 0.35 + gp * 0.30 + opf * 0.20 + cs * 0.15

/-- `categorize_expansion_priority` (src/market_expansion.py), verbatim:
nested if/else on the state tier, the combined opportunity score and the
population. -/
def categorize_expansion_priority (tier : ℤ) (score population : ℚ) : String :=
  if tier = 1 then
    if score ≥ 0.6 then "Optimization Priority" else "Maintain & Optimize"
  else if tier = 2 then
    if score ≥ 0.7 then "High Priority"
    else if score ≥ 0.5 then "Medium Priority"
    else "Low Priority"
  else
    if score ≥ 0.6 ∧ population > 2000000 then "Medium Priority"
    else if score ≥ 0.4 ∧ population > 1000000 then "Low Priority"
    else "Not Recommended"

/-- The six distinct strings that `categorize_expansion_priority` can
return (its eight branches reuse "Medium Priority" and "Low Priority"
across tiers 2 and 3). -/
def priority_labels : List String :=
  ["Optimization Priority", "Maintain & Optimize", "High Priority",
   "Medium Priority", "Low Priority", "Not Recommended"]

/-! ## Seasonal demand forecasting (`src/seasonal_analysis.py`,
`build_demand_forecasting_model`)

Monthly aggregates are rows `(year, month, revenue, orders, ...)` (grouped
counts/sums are never NaN, and `month` from a datetime is always 1..12, so
`holiday_impact`, `month_sin`, `month_cos` and `quarter` are never NaN
either).  After sorting by `(year, month)`, lag-1/2/3 columns are added and
`dropna()` removes exactly the first three rows, those whose lag-3 (and
lag-1/2) values do not exist: `model_data = sorted.drop 3`.

The trained random-forest predictors are opaque real-valued functions of the
feature vector; they are abstracted as parameters `pR`/`pO` of the embedding.
The per-forecast fields `month_name` (string formatting of the month),
`event_name`/`expected_impact` (total lookups in the 12-entry
`brazilian_events` table), and the confidence intervals (which need the
residual standard deviation, an irrational square root) carry no claim and
are omitted from the forecast record; `month_sin`/`month_cos` are likewise
opaque inputs of the opaque predictor and are dropped from the feature
vector. -/

/-- One row of `monthly_data` in `build_demand_forecasting_model`. -/
structure MonthlyRow where
  year : ℤ
  month : ℤ
  revenue : ℚ
  orders : ℚ
deriving DecidableEq, Repr

/-- The sort key of `monthly_data.sort_values(['year', 'month'])`. -/
def monthlyRowLE (a b : MonthlyRow) : Prop :=
  a.year < b.year ∨ (a.year = b.year ∧ a.month ≤ b.month)

instance : DecidableRel monthlyRowLE := by
  intro a b
  unfold monthlyRowLE
  infer_instance

/-- `monthly_data.sort_values(['year', 'month'])`. -/
def sortMonthly (l : List MonthlyRow) : List MonthlyRow :=
  l.insertionSort monthlyRowLE

/-- `quarter = ((month - 1) // 3) + 1` (Python floor division; `/` on `ℤ`
is `Int.ediv`, which agrees with Python for the positive divisor here). -/
def quarterOfMonth (m : ℤ) : ℤ := (m - 1) / 3 + 1

/-- `holiday_impact`: the impact score (`low=1, medium=2, high=3,
very_high=4`) of the fixed `brazilian_events` calendar, with the `else 2`
default the forecasting loop uses for months outside the table. -/
def holiday_impact (m : ℤ) : ℤ :=
  if m = 1 then 2 else if m = 2 then 3 else if m = 3 then 2
  else if m = 4 then 1 else if m = 5 then 3 else if m = 6 then 2
  else if m = 7 then 2 else if m = 8 then 2 else if m = 9 then 1
  else if m = 10 then 2 else if m = 11 then 4 else if m = 12 then 4
  else 2

/-- The feature vector handed to the regressors for one forecast step
(minus the opaque `month_sin`/`month_cos`, see the section comment). -/
structure FeatureVec where
  month : ℤ
  quarter : ℤ
  holidayImpact : ℤ
  revenue_lag_1 : ℚ
  revenue_lag_2 : ℚ
  revenue_lag_3 : ℚ
  orders_lag_1 : ℚ
  orders_lag_2 : ℚ
  orders_lag_3 : ℚ
deriving DecidableEq, Repr

/-- `next_month = (last_month + i - 1) % 12 + 1` (Python `%` is floor-mod;
`%` on `ℤ` is `Int.emod`, which agrees for the positive divisor here). -/
def next_month (last_month i : ℤ) : ℤ := (last_month + i - 1) % 12 + 1

/-- `next_year = last_year + ((last_month + i - 1) // 12)` (Python `//` is
floor division; `/` on `ℤ` is `Int.ediv`, which agrees for the positive
divisor here). -/
def next_year (last_year last_month i : ℤ) : ℤ :=
  last_year + (last_month + i - 1) / 12

/-- Python `int(q)`: truncation toward zero of a rational. -/
def intTrunc (q : ℚ) : ℤ := Int.tdiv q.num (q.den : ℤ)

/-- One entry of the `forecasts` list (fields carrying claims; see the
section comment for the omitted presentation fields). -/
structure Forecast where
  year : ℤ
  month : ℤ
  predicted_revenue : ℚ
  predicted_orders : ℤ
deriving DecidableEq, Repr

/-- The lag-feature fallback `model_data.iloc[-k]['revenue'] if
len(model_data) > k-1 else last_data['revenue']`: the `k`-th value from the
end of `l`, defaulting to `dflt`. -/
def nthFromEnd (l : List ℚ) (k : ℕ) (dflt : ℚ) : ℚ :=
  if l.length > k - 1 then (l.get? (l.length - k)).getD dflt else dflt

/-- The recursive 3-month forecast loop (`for i in range(1, 4)`) of
`build_demand_forecasting_model`: month `i`'s lag features come from the
previous forecasts (and the tail of `model_data` for `i = 1`), its calendar
fields from `next_month`/`next_year`, and its predictions from the opaque
regressors `pR`/`pO`. -/
def forecast3 (pR pO : FeatureVec → ℚ) (model_data : List MonthlyRow)
    (last : MonthlyRow) : List Forecast :=
  let revs := model_data.map (·.revenue)
  let ords := model_data.map (·.orders)
  let y := last.year
  let m := last.month
  let mkF (i : ℤ) (r1 r2 r3 o1 o2 o3 : ℚ) : FeatureVec :=
    { month := next_month m i, quarter := quarterOfMonth (next_month m i),
      holidayImpact := holiday_impact (next_month m i),
      revenue_lag_1 := r1, revenue_lag_2 := r2, revenue_lag_3 := r3,
      orders_lag_1 := o1, orders_lag_2 := o2, orders_lag_3 := o3 }
  let f1 := mkF 1 last.revenue (nthFromEnd revs 2 last.revenue)
      (nthFromEnd revs 3 last.revenue) last.orders
      (nthFromEnd ords 2 last.orders) (nthFromEnd ords 3 last.orders)
  let fc1 : Forecast :=
    { year := next_year y m 1, month := next_month m 1,
      predicted_revenue := pR f1, predicted_orders := intTrunc (pO f1) }
  let f2 := mkF 2 fc1.predicted_revenue last.revenue last.revenue
      (fc1.predicted_orders : ℚ) last.orders last.orders
  let fc2 : Forecast :=
    { year := next_year y m 2, month := next_month m 2,
      predicted_revenue := pR f2, predicted_orders := intTrunc (pO f2) }
  let f3 := mkF 3 fc2.predicted_revenue fc1.predicted_revenue last.revenue
      (fc2.predicted_orders : ℚ) (fc1.predicted_orders : ℚ) last.orders
  let fc3 : Forecast :=
    { year := next_year y m 3, month := next_month m 3,
      predicted_revenue := pR f3, predicted_orders := intTrunc (pO f3) }
  [fc1, fc2, fc3]

/-- `build_demand_forecasting_model` (src/seasonal_analysis.py): sort the
monthly aggregates, drop the three rows the lag-1/2/3 features leave
incomplete, return the `{'error': 'Insufficient data for forecasting'}`
sentinel when fewer than 10 rows remain, and otherwise fit and produce the
3-month recursive forecast from the last observed row. -/
def build_demand_forecasting_model (pR pO : FeatureVec → ℚ)
    (monthly : List MonthlyRow) : Except String (List Forecast) :=
  let model_data := (sortMonthly monthly).drop 3
  if h : model_data.length < 10 then
    Except.error "Insufficient data for forecasting"
  else
    Except.ok (forecast3 pR pO model_data
      (model_data.getLast (List.length_pos.mp (by omega))))

/-- The specification's wording of a month successor: the next `(year,
month)` pair, December wrapping to January of the next year.  (Spec-side
definition, compared with the code-side `next_year`/`next_month`.) -/
def succYM : ℤ × ℤ → ℤ × ℤ :=
  fun p => if p.2 = 12 then (p.1 + 1, 1) else (p.1, p.2 + 1)

/-- The `(year, month)` of the last row of `model_data`, when it exists. -/
def lastObservedYM (monthly : List MonthlyRow) : Option (ℤ × ℤ) :=
  (((sortMonthly monthly).drop 3).getLast?).map (fun r => (r.year, r.month))

/-! ## Duplicate removal (`src/data_cleaner.py`, `remove_duplicates`)

`DataFrame.drop_duplicates()` keeps, in order, the first occurrence of every
distinct row; `drop_duplicates(subset=[k], keep='first')` keeps the first
occurrence of every distinct key value.  Both are embedded as one
accumulator recursion over the row list, parameterized by the key
function (`id` for exact duplicates). -/

/-- Core of `drop_duplicates(subset=[key], keep='first')`: keep a row iff
its key has not been seen before. -/
def dedupByAux {α β : Type} [DecidableEq β] (key : α → β) :
    List β → List α → List α
  | _, [] => []
  | seen, x :: xs =>
    if key x ∈ seen then dedupByAux key seen xs
    else x :: dedupByAux key (key x :: seen) xs

/-- `drop_duplicates(subset=[key], keep='first')`. -/
def dedupBy {α β : Type} [DecidableEq β] (key : α → β) (l : List α) :
    List α :=
  dedupByAux key [] l

/-- `drop_duplicates()` (exact duplicate rows, first kept). -/
def dedupExact {α : Type} [DecidableEq α] (l : List α) : List α :=
  dedupBy id l

/-- One row of the geolocation table.  (`zip_code` embeds the zip code
column the cleaner deduplicates on; latitude/longitude are kept as
rationals, city/state as strings.) -/
structure GeoRow where
  zip_code : ℤ
  lat : ℚ
  lng : ℚ
  city : String
  state : String
deriving DecidableEq, Repr

/-- The geolocation branch of `remove_duplicates` (src/data_cleaner.py):
drop exact duplicates, then keep the first row of each zip code. -/
def remove_duplicates_geolocation (l : List GeoRow) : List GeoRow :=
  dedupBy (·.zip_code) (dedupExact l)

/-! ## Missing-value cleaning (`src/data_cleaner.py`, `clean_missing_values`,
`convert_data_types`, `clean_all_data`)

A raw date cell is one of: missing (NaN/NaT), a parseable date (embedded at
day granularity as an integer day number), or a non-missing but unparseable
value.  `isna()` is false on an unparseable value; `pd.to_datetime(...,
errors='coerce')` turns it into NaT.  This three-way state is what makes the
interaction of `clean_missing_values` with `convert_data_types` visible. -/

/-- A raw date cell: missing, a valid day number, or non-missing but
unparseable. -/
inductive DVal where
  | missing : DVal
  | valid : ℤ → DVal
  | invalid : DVal
deriving DecidableEq, Repr

/-- `isna()` on a raw date cell (an unparseable string is not NA). -/
def DVal.isna : DVal → Bool
  | .missing => true
  | _ => false

/-- `pd.to_datetime(col, errors='coerce')` on one cell: unparseable values
become NaT, everything else is unchanged. -/
def DVal.coerce : DVal → DVal
  | .invalid => .missing
  | v => v

/-- `timestamp - pd.Timedelta(days=1)`.  (The source reaches this through
`pd.to_datetime` without `errors='coerce'`, which raises on an unparseable
value; no theorem below takes that path, see the no-invalid hypotheses.) -/
def DVal.dayBefore : DVal → DVal
  | .valid d => .valid (d - 1)
  | v => v

/-- The columns of one row of the orders table that
`clean_missing_values`, `remove_duplicates` and `convert_data_types`
read or write. -/
structure OrderRow where
  order_id : ℕ
  order_status : String
  purchase : DVal
  delivered_customer : DVal
  delivered_carrier : DVal
  estimated_delivery : DVal
deriving DecidableEq, Repr

/-- The `delivered_mask` of `clean_missing_values`: order delivered, missing
customer-delivery date, estimated date available. -/
def deliveredFillMask (r : OrderRow) : Bool :=
  r.order_status = "delivered" && r.delivered_customer.isna &&
    !r.estimated_delivery.isna

/-- Fill a missing customer-delivery date of a delivered order with the
estimated delivery date. -/
def fillDeliveredDate (r : OrderRow) : OrderRow :=
  if deliveredFillMask r then
    { r with delivered_customer := r.estimated_delivery }
  else r

/-- The `carrier_missing` mask: missing carrier date, customer date
available. -/
def carrierFillMask (r : OrderRow) : Bool :=
  r.delivered_carrier.isna && !r.delivered_customer.isna

/-- Estimate a missing carrier date as one day before the customer
delivery date. -/
def fillCarrierDate (r : OrderRow) : OrderRow :=
  if carrierFillMask r then
    { r with delivered_carrier := r.delivered_customer.dayBefore }
  else r

/-- The orders part of `clean_missing_values`: delivery-date fill over the
whole table, then carrier-date fill over the updated table (both act
row-wise). -/
def clean_missing_values_orders (l : List OrderRow) : List OrderRow :=
  (l.map fillDeliveredDate).map fillCarrierDate

/-- The orders part of `convert_data_types`: `pd.to_datetime(...,
errors='coerce')` on every date column. -/
def convertOrderRow (r : OrderRow) : OrderRow :=
  { r with purchase := r.purchase.coerce,
           delivered_customer := r.delivered_customer.coerce,
           delivered_carrier := r.delivered_carrier.coerce,
           estimated_delivery := r.estimated_delivery.coerce }

/-- One pass of the cleaning pipeline over the orders table, restricted to
the stages that touch its modeled columns, in `clean_all_data` order:
`clean_missing_values`, `remove_duplicates` (exact duplicates), then
`convert_data_types`.  (`create_derived_features` only appends new columns
computed from the cells modeled here and is value-irrelevant to these.) -/
def cleanOrdersPass (l : List OrderRow) : List OrderRow :=
  (dedupExact (clean_missing_values_orders l)).map convertOrderRow

/-- The number of delivery-date fills a run of `clean_missing_values` would
perform on `l` (the count it logs as "Filled N missing delivery dates"). -/
def count_delivered_date_fills (l : List OrderRow) : ℕ :=
  (l.filter deliveredFillMask).length

/-- The number of carrier-date fills performed on `l` (counted, as in the
source, on the table after the delivery-date fill). -/
def count_carrier_date_fills (l : List OrderRow) : ℕ :=
  ((l.map fillDeliveredDate).filter carrierFillMask).length

/-- No cell of the row is a non-missing unparseable value. -/
def OrderRow.noInvalidDates (r : OrderRow) : Prop :=
  r.purchase ≠ .invalid ∧ r.delivered_customer ≠ .invalid ∧
    r.delivered_carrier ≠ .invalid ∧ r.estimated_delivery ≠ .invalid

instance (r : OrderRow) : Decidable r.noInvalidDates := by
  unfold OrderRow.noInvalidDates
  infer_instance

/-- `median()` of a column: NaN values are ignored by pandas (the input
list holds only the non-missing values); the median of an empty column is
NaN (`none`); otherwise sort and take the middle element (odd length) or
the mean of the two middle elements (even length). -/
def medianQ (l : List ℚ) : Option ℚ :=
  let s := l.insertionSort (· ≤ ·)
  if s.length = 0 then none
  else if s.length % 2 = 1 then s.get? (s.length / 2)
  else do
    let a ← s.get? (s.length / 2 - 1)
    let b ← s.get? (s.length / 2)
    pure ((a + b) / 2)

/-- The columns of one row of the products table that
`clean_missing_values` reads or writes. -/
structure ProductRow where
  product_id : ℕ
  product_category_name : Option String
  product_weight_g : Option ℚ
  product_length_cm : Option ℚ
  product_height_cm : Option ℚ
  product_width_cm : Option ℚ
deriving DecidableEq, Repr

/-- Missing product category ← literal "unknown". -/
def fill_missing_category (r : ProductRow) : ProductRow :=
  if r.product_category_name.isNone then
    { r with product_category_name := some "unknown" }
  else r

/-- `median_by_category[c]`: the median of the non-missing values of the
column in category `c` of table `l`. -/
def catMedianOf (get : ProductRow → Option ℚ) (l : List ProductRow)
    (c : Option String) : Option ℚ :=
  medianQ ((l.filter (fun r => r.product_category_name = c)).filterMap get)

/-- Phase A of the missing-dimension imputation: impute per category with
the category medians of the (snapshot) table (pandas `groupby` drops NaN
categories, hence the `isSome` condition; a NaN category median is assigned
as NaN, i.e. the cell stays missing). -/
def fillDimA (get : ProductRow → Option ℚ)
    (set : ProductRow → Option ℚ → ProductRow) (l : List ProductRow) :
    List ProductRow :=
  l.map (fun r =>
    if (get r).isNone && r.product_category_name.isSome then
      set r (catMedianOf get l r.product_category_name)
    else r)

/-- Phase B of the missing-dimension imputation: guarded by
`still_missing.sum() > 0`; fill what is still missing with the overall
median of the updated column (NaN — i.e. still missing — when the whole
column is missing). -/
def fillDimB (get : ProductRow → Option ℚ)
    (set : ProductRow → Option ℚ → ProductRow) (l : List ProductRow) :
    List ProductRow :=
  if (l.filter (fun r => (get r).isNone)).length = 0 then l
  else l.map (fun r =>
    if (get r).isNone then set r (medianQ (l.filterMap get)) else r)

/-- The missing-dimension imputation of `clean_missing_values` for one
numeric column (given by its getter/setter): guarded by
`missing_mask.sum() > 0`, then phase A (category medians) followed by
phase B (overall median of the updated column). -/
def fill_missing_dimension (get : ProductRow → Option ℚ)
    (set : ProductRow → Option ℚ → ProductRow) (l : List ProductRow) :
    List ProductRow :=
  if (l.filter (fun r => (get r).isNone)).length = 0 then l
  else fillDimB get set (fillDimA get set l)

/-- `col <= 0` on one cell (false on NaN, as in pandas). -/
def cellInvalid (v : Option ℚ) : Bool :=
  match v with
  | some x => x ≤ 0
  | none => false

/-- The category medians of the positive values of the column
(`products_df[products_df[col] > 0].groupby(...)[col].median()`): `none`
exactly when the category has no positive value. -/
def catPosMedianOf (get : ProductRow → Option ℚ) (l : List ProductRow)
    (c : Option String) : Option ℚ :=
  medianQ (((l.filter (fun r => r.product_category_name = c)).filterMap
    get).filter (fun v => 0 < v))

/-- Phase A of the invalid-dimension fix: replace non-positive values with
the positive-value category median when that exists and is positive. -/
def fixDimA (get : ProductRow → Option ℚ)
    (set : ProductRow → Option ℚ → ProductRow) (l : List ProductRow) :
    List ProductRow :=
  l.map (fun r =>
    if cellInvalid (get r) && r.product_category_name.isSome then
      match catPosMedianOf get l r.product_category_name with
      | some m => if 0 < m then set r (some m) else r
      | none => r
    else r)

/-- Phase B of the invalid-dimension fix: guarded by
`still_invalid.sum() > 0`; replace what is still non-positive with the
overall positive-value median of the updated column when that exists and is
positive (otherwise the values are left as they are). -/
def fixDimB (get : ProductRow → Option ℚ)
    (set : ProductRow → Option ℚ → ProductRow) (l : List ProductRow) :
    List ProductRow :=
  if (l.filter (fun r => cellInvalid (get r))).length = 0 then l
  else
    match medianQ ((l.filterMap get).filter (fun v => 0 < v)) with
    | some m =>
      if 0 < m then
        l.map (fun r => if cellInvalid (get r) then set r (some m) else r)
      else l
    | none => l

/-- The invalid-dimension fix of `clean_missing_values` for one numeric
column: guarded by `invalid_values.sum() > 0`, then phase A (positive
category medians) followed by phase B (overall positive median of the
updated column). -/
def fix_invalid_dimension (get : ProductRow → Option ℚ)
    (set : ProductRow → Option ℚ → ProductRow) (l : List ProductRow) :
    List ProductRow :=
  if (l.filter (fun r => cellInvalid (get r))).length = 0 then l
  else fixDimB get set (fixDimA get set l)

/-- Getter for `product_weight_g`. -/
def getWeight (r : ProductRow) : Option ℚ := r.product_weight_g

/-- Setter for `product_weight_g`. -/
def setWeight (r : ProductRow) (v : Option ℚ) : ProductRow :=
  { r with product_weight_g := v }

/-- Getter for `product_length_cm`. -/
def getLength (r : ProductRow) : Option ℚ := r.product_length_cm

/-- Setter for `product_length_cm`. -/
def setLength (r : ProductRow) (v : Option ℚ) : ProductRow :=
  { r with product_length_cm := v }

/-- Getter for `product_height_cm`. -/
def getHeight (r : ProductRow) : Option ℚ := r.product_height_cm

/-- Setter for `product_height_cm`. -/
def setHeight (r : ProductRow) (v : Option ℚ) : ProductRow :=
  { r with product_height_cm := v }

/-- Getter for `product_width_cm`. -/
def getWidth (r : ProductRow) : Option ℚ := r.product_width_cm

/-- Setter for `product_width_cm`. -/
def setWidth (r : ProductRow) (v : Option ℚ) : ProductRow :=
  { r with product_width_cm := v }

/-- The products part of `clean_missing_values`: category fill, then, for
each of the four dimension columns in source order, missing-value
imputation followed by the invalid-value fix. -/
def clean_missing_values_products (l : List ProductRow) : List ProductRow :=
  fix_invalid_dimension getWidth setWidth
    (fill_missing_dimension getWidth setWidth
      (fix_invalid_dimension getHeight setHeight
        (fill_missing_dimension getHeight setHeight
          (fix_invalid_dimension getLength setLength
            (fill_missing_dimension getLength setLength
              (fix_invalid_dimension getWeight setWeight
                (fill_missing_dimension getWeight setWeight
                  (l.map fill_missing_category))))))))

/-- One pass of the cleaning pipeline over the products table (imputation
stages and exact dedup; the category-translation merge and the derived
volume/density columns act on columns outside this model). -/
def cleanProductsPass (l : List ProductRow) : List ProductRow :=
  dedupExact (clean_missing_values_products l)

/-- The columns of one row of the order_payments table that
`clean_missing_values` reads or writes. -/
structure PaymentRow where
  order_id : ℕ
  payment_type : String
  payment_value : Option ℚ
deriving DecidableEq, Repr

/-- `payment_value <= 0` (false on NaN). -/
def paymentInvalid (r : PaymentRow) : Bool := cellInvalid r.payment_value

/-- The payment-type medians of the positive payment values
(`payments_df[payments_df['payment_value'] > 0].groupby('payment_type')
['payment_value'].median()`). -/
def typePosMedianOf (l : List PaymentRow) (t : String) : Option ℚ :=
  medianQ (((l.filter (fun r => r.payment_type = t)).filterMap
    (·.payment_value)).filter (fun v => 0 < v))

/-- Phase A of the invalid-payment fix: replace non-positive payment values
with the positive-value median of their payment type when the type appears
in the (positive-filtered) median index. -/
def fixPayA (l : List PaymentRow) : List PaymentRow :=
  l.map (fun r =>
    if paymentInvalid r then
      match typePosMedianOf l r.payment_type with
      | some m => { r with payment_value := some m }
      | none => r
    else r)

/-- Phase B of the invalid-payment fix: guarded by
`still_invalid.sum() > 0`; assign the overall positive-value median —
unguarded, so a NaN median makes the cell NaN — to what is still
non-positive. -/
def fixPayB (l : List PaymentRow) : List PaymentRow :=
  if (l.filter paymentInvalid).length = 0 then l
  else l.map (fun r =>
    if paymentInvalid r then
      { r with payment_value :=
          medianQ ((l.filterMap (·.payment_value)).filter (fun v => 0 < v)) }
    else r)

/-- The payments part of `clean_missing_values`: guarded by
`invalid_payments.sum() > 0`, then phase A (positive type medians) followed
by phase B (overall positive median of the updated column). -/
def fix_invalid_payments (l : List PaymentRow) : List PaymentRow :=
  if (l.filter paymentInvalid).length = 0 then l
  else fixPayB (fixPayA l)

/-- One pass of the cleaning pipeline over the payments table. -/
def cleanPaymentsPass (l : List PaymentRow) : List PaymentRow :=
  dedupExact (fix_invalid_payments l)

/-- One pass of the cleaning pipeline over the geolocation table
(`remove_duplicates` is the only stage that touches it). -/
def cleanGeoPass (l : List GeoRow) : List GeoRow :=
  remove_duplicates_geolocation l

/-! ## Column-presence semantics of `clean_missing_values`
(`src/data_cleaner.py`)

Every *table* access of the cleaner is guarded (`if 'orders' in
self.datasets:` ...), but inside a present table `clean_missing_values`
accesses a fixed set of columns with plain indexing and no guard, so a
present table that lacks one of them raises `KeyError`.  The model tracks,
per table, only which columns exist; each unconditional column access
becomes a lookup that fails with the `KeyError` message.  (Columns the
source touches only under data-dependent guards — e.g. `payment_type`, read
only when non-positive payments exist — are not modeled.) -/

/-- A table as seen by the column-presence model: the list of its column
names. -/
structure TableCols where
  cols : List String
deriving DecidableEq, Repr

/-- The tables `clean_missing_values` handles, each present or absent. -/
structure RawTables where
  orders : Option TableCols
  products : Option TableCols
  order_reviews : Option TableCols
  order_payments : Option TableCols
deriving DecidableEq, Repr

/-- `df[c]`: plain column indexing, `KeyError` when the column is absent. -/
def getColumn (t : TableCols) (c : String) : Except String Unit :=
  if c ∈ t.cols then Except.ok () else Except.error ("KeyError: " ++ c)

/-- Sequencing of two steps: the first raised error propagates, otherwise
the second step runs. -/
def seqE (a b : Except String Unit) : Except String Unit :=
  match a with
  | Except.ok _ => b
  | Except.error e => Except.error e

/-- Index the columns `cs` of table `t` in order, stopping at the first
`KeyError`. -/
def requireAll (t : TableCols) : List String → Except String Unit
  | [] => Except.ok ()
  | c :: cs => seqE (getColumn t c) (requireAll t cs)

/-- Perform the unconditional column accesses of one table's cleaning step;
an absent table is skipped (only logged). -/
def requireColumns (t : Option TableCols) (cs : List String) :
    Except String Unit :=
  match t with
  | none => Except.ok ()
  | some t => requireAll t cs

/-- The orders columns `clean_missing_values` indexes unconditionally. -/
def ordersAccessedColumns : List String :=
  ["order_status", "order_delivered_customer_date",
   "order_estimated_delivery_date", "order_delivered_carrier_date"]

/-- The products columns `clean_missing_values` indexes unconditionally. -/
def productsAccessedColumns : List String :=
  ["product_category_name", "product_weight_g", "product_length_cm",
   "product_height_cm", "product_width_cm"]

/-- The order_reviews columns `clean_missing_values` indexes
unconditionally. -/
def reviewsAccessedColumns : List String :=
  ["review_comment_title", "review_comment_message"]

/-- The order_payments columns `clean_missing_values` indexes
unconditionally. -/
def paymentsAccessedColumns : List String :=
  ["payment_value"]

/-- The column accesses of `clean_missing_values`, table by table in source
order; absent tables are skipped, and the first `KeyError` propagates. -/
def clean_missing_values_columns (ts : RawTables) : Except String Unit :=
  seqE (requireColumns ts.orders ordersAccessedColumns)
    (seqE (requireColumns ts.products productsAccessedColumns)
      (seqE (requireColumns ts.order_reviews reviewsAccessedColumns)
        (requireColumns ts.order_payments paymentsAccessedColumns)))

/-! ## Derived delivery features (`src/data_cleaner.py`,
`create_derived_features`; `src/feature_engineer.py`,
`create_delivery_performance_features`)

This stage runs after type conversion, so date cells are datetime-or-NaT
(`Option ℤ`, at day granularity).  `delivery_vs_estimate_days` and
`on_time_delivery` are written only on `estimate_mask = delivered_mask &
estimated.notna()` rows, where `delivered_mask` also requires the purchase
timestamp; both stay NaN elsewhere. -/

/-- A post-conversion orders row, reduced to the three dates the delivery
features read. -/
structure DeliveredOrder where
  purchase : Option ℤ
  delivered_customer : Option ℤ
  estimated_delivery : Option ℤ
deriving DecidableEq, Repr

/-- `delivery_days`: customer-delivery minus purchase, on `delivered_mask`
rows only. -/
def delivery_days (r : DeliveredOrder) : Option ℤ :=
  match r.delivered_customer, r.purchase with
  | some c, some p => some (c - p)
  | _, _ => none

/-- `delivery_vs_estimate_days`: customer-delivery minus estimated
delivery, on `estimate_mask` rows only (which also requires the purchase
timestamp, through `delivered_mask`). -/
def delivery_vs_estimate_days (r : DeliveredOrder) : Option ℤ :=
  match r.delivered_customer, r.purchase, r.estimated_delivery with
  | some c, some _, some e => some (c - e)
  | _, _, _ => none

/-- `on_time_delivery`: `delivery_vs_estimate_days <= 0`, written on the
same rows as `delivery_vs_estimate_days`. -/
def on_time_delivery (r : DeliveredOrder) : Option Bool :=
  (delivery_vs_estimate_days r).map (fun d => decide (d ≤ 0))

/-! ## Test fixtures used by the witness theorems -/

/-- 13 monthly rows (so 10 remain after the lag-feature drop). -/
def sampleMonthly13 : List MonthlyRow :=
  (List.range 13).map (fun i => ⟨2010 + i, 1, 0, 0⟩)

/-- 13 monthly rows whose last observed month is December (so the forecast
wraps to January of the next year). -/
def sampleMonthlyWrap : List MonthlyRow :=
  ⟨2015, 12, 0, 0⟩ :: (List.range 12).map (fun i => ⟨2016, (i : ℤ) + 1, 0, 0⟩)

/-- A duplicated geolocation fixture: zip 1 twice (different coordinates),
zip 2 once. -/
def sampleGeo : List GeoRow :=
  [⟨1, 0, 0, "sao paulo", "SP"⟩, ⟨1, 5, 5, "sao paulo", "SP"⟩,
   ⟨2, 0, 0, "rio de janeiro", "RJ"⟩]

/-- A delivered order whose unparseable (non-missing, invalid)
customer-delivery date survives `clean_missing_values` untouched, is
coerced to NaT by `convert_data_types`, and is therefore imputed by a
second cleaning pass. -/
def badOrderRow : OrderRow :=
  ⟨0, "delivered", .valid 0, .invalid, .valid 5, .valid 10⟩

/-- Well-formed orders fixture (no unparseable dates; one missing delivery
date to exercise both fills). -/
def ordersFixture : List OrderRow :=
  [⟨0, "delivered", .valid 0, .missing, .missing, .valid 10⟩,
   ⟨1, "shipped", .valid 3, .missing, .valid 4, .valid 9⟩]

/-- Products fixture (a missing category, a missing weight, a non-positive
height). -/
def productsFixture : List ProductRow :=
  [⟨0, none, none, some 10, some 2, some 3⟩,
   ⟨1, some "toys", some 200, some 10, some 0, some 3⟩]

/-- Payments fixture (one non-positive payment value). -/
def paymentsFixture : List PaymentRow :=
  [⟨0, "credit_card", some 25⟩, ⟨1, "credit_card", some 0⟩]

/-- Geolocation fixture for the idempotence witness. -/
def geoFixture : List GeoRow :=
  [⟨10, 1, 1, "campinas", "SP"⟩, ⟨10, 2, 2, "campinas", "SP"⟩]

/-!
# Theorems
-/

/-! ### General list lemmas -/

theorem map_eq_self_of_forall {α : Type} {f : α → α} {l : List α}
    (h : ∀ a ∈ l, f a = a) : l.map f = l := by
  induction l with
  | nil => rfl
  | cons x xs ih =>
    simp only [List.map_cons, h x (by simp), ih (fun a ha => h a (by simp [ha]))]

theorem find?_append_cons {α : Type} {p : α → Bool} {y : α} {l₁ l₂ : List α}
    (h₁ : ∀ x ∈ l₁, p x = false) (hy : p y = true) :
    (l₁ ++ y :: l₂).find? p = some y := by
  induction l₁ with
  | nil => simp [List.find?_cons, hy]
  | cons a l ih =>
    have ha : p a = false := h₁ a (by simp)
    simp only [List.cons_append, List.find?_cons, ha]
    exact ih (fun x hx => h₁ x (by simp [hx]))

/-! ### Properties of `dedupByAux` (`drop_duplicates` keep-first) -/

theorem dedupByAux_cons_of_mem {α β : Type} [DecidableEq β] {key : α → β}
    {seen : List β} {x : α} (xs : List α) (h : key x ∈ seen) :
    dedupByAux key seen (x :: xs) = dedupByAux key seen xs := by
  simp only [dedupByAux, if_pos h]

theorem dedupByAux_cons_of_not_mem {α β : Type} [DecidableEq β]
    {key : α → β} {seen : List β} {x : α} (xs : List α)
    (h : key x ∉ seen) :
    dedupByAux key seen (x :: xs) =
      x :: dedupByAux key (key x :: seen) xs := by
  simp only [dedupByAux, if_neg h]

theorem dedupByAux_sublist {α β : Type} [DecidableEq β] (key : α → β)
    (seen : List β) (l : List α) : List.Sublist (dedupByAux key seen l) l := by
  induction l generalizing seen with
  | nil => simp [dedupByAux]
  | cons x xs ih =>
    unfold dedupByAux
    split
    · exact (ih seen).cons x
    · exact (ih (key x :: seen)).cons₂ x

theorem key_not_seen_of_mem_dedupByAux {α β : Type} [DecidableEq β]
    {key : α → β} {seen : List β} {l : List α} {y : α}
    (hy : y ∈ dedupByAux key seen l) : key y ∉ seen := by
  induction l generalizing seen with
  | nil => simp [dedupByAux] at hy
  | cons x xs ih =>
    unfold dedupByAux at hy
    split at hy
    · exact ih hy
    · rcases List.mem_cons.mp hy with h | h
      · subst h; assumption
      · intro hmem
        exact ih h (List.mem_cons_of_mem _ hmem)

theorem keys_nodup_dedupByAux {α β : Type} [DecidableEq β] (key : α → β)
    (seen : List β) (l : List α) :
    ((dedupByAux key seen l).map key).Nodup := by
  induction l generalizing seen with
  | nil => simp [dedupByAux]
  | cons x xs ih =>
    unfold dedupByAux
    split
    · exact ih seen
    · simp only [List.map_cons, List.nodup_cons]
      refine ⟨fun hmem => ?_, ih (key x :: seen)⟩
      rcases List.mem_map.mp hmem with ⟨y, hy, hkey⟩
      exact key_not_seen_of_mem_dedupByAux hy (by simp [hkey])

theorem keys_toFinset_dedupByAux {α β : Type} [DecidableEq β] (key : α → β)
    (seen : List β) (l : List α) :
    ((dedupByAux key seen l).map key).toFinset =
      (l.map key).toFinset \ seen.toFinset := by
  induction l generalizing seen with
  | nil => simp [dedupByAux]
  | cons x xs ih =>
    unfold dedupByAux
    split
    · rename_i hmem
      rw [ih seen]
      ext b
      simp only [List.map_cons, List.toFinset_cons, Finset.mem_sdiff,
        Finset.mem_insert, List.mem_toFinset]
      constructor
      · rintro ⟨hb, hnb⟩; exact ⟨Or.inr hb, hnb⟩
      · rintro ⟨hb | hb, hnb⟩
        · exact absurd (hb ▸ hmem) hnb
        · exact ⟨hb, hnb⟩
    · rename_i hmem
      simp only [List.map_cons, List.toFinset_cons]
      rw [ih (key x :: seen)]
      ext b
      simp only [Finset.mem_insert, Finset.mem_sdiff, List.mem_toFinset,
        List.toFinset_cons, List.mem_cons]
      constructor
      · rintro (hb | ⟨hb, hnb⟩)
        · exact ⟨Or.inl hb, fun hbs => hmem (hb ▸ hbs)⟩
        · exact ⟨Or.inr hb, fun hbs => hnb (Or.inr hbs)⟩
      · rintro ⟨hb | hb, hnb⟩
        · exact Or.inl hb
        · by_cases hbx : b = key x
          · exact Or.inl hbx
          · refine Or.inr ⟨hb, fun hbs => ?_⟩
            rcases hbs with h | h
            · exact hbx h
            · exact hnb h

theorem dedupByAux_first_occurrence {α β : Type} [DecidableEq β]
    {key : α → β} {seen : List β} {l : List α} {y : α}
    (hy : y ∈ dedupByAux key seen l) :
    ∃ l₁ l₂, l = l₁ ++ y :: l₂ ∧ ∀ x ∈ l₁, key x = key y → key x ∈ seen := by
  induction l generalizing seen with
  | nil => simp [dedupByAux] at hy
  | cons x xs ih =>
    unfold dedupByAux at hy
    split at hy
    · rename_i hmem
      obtain ⟨l₁, l₂, heq, hfst⟩ := ih hy
      refine ⟨x :: l₁, l₂, by simp [heq], ?_⟩
      intro z hz hkz
      rcases List.mem_cons.mp hz with h | h
      · subst h; exact hkz ▸ hmem
      · exact hfst z h hkz
    · rename_i hmem
      rcases List.mem_cons.mp hy with h | h
      · subst h; exact ⟨[], xs, rfl, by simp⟩
      · obtain ⟨l₁, l₂, heq, hfst⟩ := ih h
        have hky : key y ∉ key x :: seen := key_not_seen_of_mem_dedupByAux h
        refine ⟨x :: l₁, l₂, by simp [heq], ?_⟩
        intro z hz hkz
        rcases List.mem_cons.mp hz with hzx | hzl
        · subst hzx
          exact absurd (by simp [hkz]) hky
        · rcases List.mem_cons.mp (hfst z hzl hkz) with hzs | hzs
          · exact absurd (by simp [hkz ▸ hzs]) hky
          · exact hzs

theorem dedupByAux_eq_self {α β : Type} [DecidableEq β] {key : α → β}
    {seen : List β} {l : List α} (hnd : (l.map key).Nodup)
    (hdis : ∀ x ∈ l, key x ∉ seen) : dedupByAux key seen l = l := by
  induction l generalizing seen with
  | nil => rfl
  | cons x xs ih =>
    simp only [List.map_cons, List.nodup_cons] at hnd
    unfold dedupByAux
    rw [if_neg (hdis x (by simp))]
    congr 1
    refine ih hnd.2 ?_
    intro z hz
    simp only [List.mem_cons, not_or]
    refine ⟨fun hzx => hnd.1 (hzx ▸ List.mem_map_of_mem key hz), ?_⟩
    exact hdis z (by simp [hz])

theorem dedupByAux_dedupByAux_id {α β : Type} [DecidableEq α]
    [DecidableEq β] (key : α → β) (seenE : List α) (seenK : List β)
    (l : List α) (h : ∀ x ∈ seenE, key x ∈ seenK) :
    dedupByAux key seenK (dedupByAux id seenE l) =
      dedupByAux key seenK l := by
  induction l generalizing seenE seenK with
  | nil => rfl
  | cons x xs ih =>
    by_cases hE : x ∈ seenE
    · rw [dedupByAux_cons_of_mem xs (show id x ∈ seenE from hE),
        ih seenE seenK h, dedupByAux_cons_of_mem xs (h x hE)]
    · rw [dedupByAux_cons_of_not_mem xs (show id x ∉ seenE from hE)]
      by_cases hK : key x ∈ seenK
      · rw [dedupByAux_cons_of_mem _ hK, dedupByAux_cons_of_mem _ hK]
        exact ih (x :: seenE) seenK
          (fun z hz => by
            rcases List.mem_cons.mp hz with hzx | hzs
            · exact hzx ▸ hK
            · exact h z hzs)
      · rw [dedupByAux_cons_of_not_mem _ hK, dedupByAux_cons_of_not_mem _ hK]
        congr 1
        exact ih (x :: seenE) (key x :: seenK)
          (fun z hz => by
            rcases List.mem_cons.mp hz with hzx | hzs
            · exact hzx ▸ List.mem_cons_self _ _
            · exact List.mem_cons_of_mem _ (h z hzs))

theorem dedupBy_dedupExact {α β : Type} [DecidableEq α] [DecidableEq β]
    (key : α → β) (l : List α) :
    dedupBy key (dedupExact l) = dedupBy key l :=
  dedupByAux_dedupByAux_id key [] [] l (by simp)

theorem dedupExact_idem {α : Type} [DecidableEq α] (l : List α) :
    dedupExact (dedupExact l) = dedupExact l :=
  dedupBy_dedupExact id l

theorem dedupExact_eq_self_of_nodup {α : Type} [DecidableEq α]
    {l : List α} (h : l.Nodup) : dedupExact l = l :=
  dedupByAux_eq_self (by simpa using h) (by simp)

theorem remove_duplicates_geolocation_eq_dedupBy (l : List GeoRow) :
    remove_duplicates_geolocation l = dedupBy (·.zip_code) l :=
  dedupBy_dedupExact _ l

/-- C6: after the cleaner's duplicate removal the geolocation output has
exactly one row per distinct zip code value — the first occurrence in input
order — so its zip codes are pairwise distinct, its row count equals the
number of distinct zip codes (hence is at most the input row count), every
output row is the first input row bearing its zip code, and every input zip
code is still represented. -/
theorem C6_geolocation_one_row_per_zip (l : List GeoRow) :
    ((remove_duplicates_geolocation l).map (·.zip_code)).Nodup ∧
    (remove_duplicates_geolocation l).length =
      (l.map (·.zip_code)).toFinset.card ∧
    (remove_duplicates_geolocation l).length ≤ l.length ∧
    (∀ r ∈ remove_duplicates_geolocation l,
      l.find? (fun x => decide (x.zip_code = r.zip_code)) = some r) ∧
    (∀ r ∈ l, ∃ s ∈ remove_duplicates_geolocation l,
      s.zip_code = r.zip_code) := by
  rw [remove_duplicates_geolocation_eq_dedupBy]
  simp only [dedupBy]
  have hkeys := keys_toFinset_dedupByAux (fun x : GeoRow => x.zip_code) [] l
  simp only [List.toFinset_nil, Finset.sdiff_empty] at hkeys
  refine ⟨keys_nodup_dedupByAux _ [] l, ?_, ?_, ?_, ?_⟩
  · calc (dedupByAux (fun x : GeoRow => x.zip_code) [] l).length
        = ((dedupByAux (fun x : GeoRow => x.zip_code) [] l).map
            (fun x => x.zip_code)).length := by rw [List.length_map]
      _ = ((dedupByAux (fun x : GeoRow => x.zip_code) [] l).map
            (fun x => x.zip_code)).toFinset.card :=
          (List.toFinset_card_of_nodup (keys_nodup_dedupByAux _ [] l)).symm
      _ = (l.map (fun x => x.zip_code)).toFinset.card := by rw [hkeys]
  · exact (dedupByAux_sublist _ [] l).length_le
  · intro r hr
    obtain ⟨l₁, l₂, heq, hfst⟩ := dedupByAux_first_occurrence hr
    rw [heq]
    refine find?_append_cons ?_ (by simp)
    intro x hx
    simp only [decide_eq_false_iff_not]
    intro hkx
    simpa using hfst x hx hkx
  · intro r hr
    have hz : r.zip_code ∈ ((dedupByAux (fun x : GeoRow => x.zip_code) [] l).map
        (fun x => x.zip_code)).toFinset := by
      rw [hkeys]
      simp only [List.mem_toFinset]
      exact List.mem_map_of_mem _ hr
    simp only [List.mem_toFinset, List.mem_map] at hz
    obtain ⟨s, hs, hsz⟩ := hz
    exact ⟨s, hs, hsz⟩

/-- Witness for C6: on the concrete duplicated geolocation fixture, the
first row with zip code 1 is what duplicate removal keeps. -/
theorem C6_geolocation_one_row_per_zip_witness :
    (⟨1, 0, 0, "sao paulo", "SP"⟩ : GeoRow) ∈
      remove_duplicates_geolocation sampleGeo ∧
    sampleGeo.find? (fun x => decide (x.zip_code = 1)) =
      some ⟨1, 0, 0, "sao paulo", "SP"⟩ ∧
    (remove_duplicates_geolocation sampleGeo).length = 2 := by
  have hmem : (⟨1, 0, 0, "sao paulo", "SP"⟩ : GeoRow) ∈
      remove_duplicates_geolocation sampleGeo := by decide
  have h := (C6_geolocation_one_row_per_zip sampleGeo).2.2.2.1 _ hmem
  exact ⟨hmem, h, by decide⟩

/-! ### C1: RFM scores and the segment decision table -/

/-- C1: every qcut label — hence every recency/frequency/monetary score —
is an integer in {1,2,3,4,5}; the segment decision table is total, sending
every (R,F,M) triple (in particular every triple of scores in {1..5}³) to
one of the nine fixed categories, with the non-matching combinations
falling through to "Others" (reached, e.g., at (1,3,2)). -/
theorem C1_rfm_scores_and_segment_table :
    (∀ bin : Fin 5, recency_score bin ∈ ({1, 2, 3, 4, 5} : Finset ℤ)) ∧
    (∀ bin : Fin 5, frequency_score bin ∈ ({1, 2, 3, 4, 5} : Finset ℤ)) ∧
    (∀ bin : Fin 5, monetary_score bin ∈ ({1, 2, 3, 4, 5} : Finset ℤ)) ∧
    (∀ r f m : ℤ, categorize_customer r f m ∈ nine_segments) ∧
    (∀ i j k : Fin 5,
      categorize_customer (recency_score i) (frequency_score j)
        (monetary_score k) ∈ nine_segments) ∧
    categorize_customer 1 3 2 = "Others" := by
  refine ⟨by decide, by decide, by decide, ?_, by decide, by decide⟩
  intro r f m
  unfold categorize_customer
  split_ifs <;> decide

/-! ### C2: the CLV formula -/

/-- C2 counterexample: for a customer with a 61-day lifetime, 2 orders and
an average order value of 10, the code's `estimated_clv` (= 20: the months
factors cancel) differs from the claimed
`avg_order_value × (orders / active-months)` (≈ 9.98): the code carries the
third factor `max(active-months, 1)`. -/
theorem C2_clv_counterexample :
    estimated_clv 61 2 10 ≠ 10 * (2 / lifetime_months 61) := by
  have h1 : (1 : ℚ) ≤ lifetime_months 61 := by
    unfold lifetime_months
    norm_num
  unfold estimated_clv order_frequency_per_month
  rw [if_pos (by norm_num), max_eq_left h1]
  unfold lifetime_months
  norm_num

/-- C2 amended: `estimated_clv = avg_order_value × order_frequency_per_month
× max(active-months, 1)`, which collapses to `avg_order_value ×
total_orders` whenever the lifetime is zero or spans at least one month,
and to `avg_order_value × total_orders / active-months` only for customers
whose positive lifetime is shorter than one month. -/
theorem C2_amended_clv_closed_form (days : ℤ) (total_orders aov : ℚ)
    (h : 0 ≤ days) :
    estimated_clv days total_orders aov =
      if 0 < days ∧ lifetime_months days < 1 then
        aov * total_orders / lifetime_months days
      else aov * total_orders := by
  rcases lt_or_eq_of_le h with hpos | hz
  · have hm : 0 < lifetime_months days := by
      unfold lifetime_months
      apply div_pos (by exact_mod_cast hpos) (by norm_num)
    by_cases hlt : lifetime_months days < 1
    · rw [if_pos ⟨hpos, hlt⟩]
      unfold estimated_clv order_frequency_per_month
      rw [if_pos hpos, max_eq_right hlt.le, mul_one, mul_div_assoc]
    · rw [if_neg (fun hc => hlt hc.2)]
      unfold estimated_clv order_frequency_per_month
      rw [if_pos hpos, max_eq_left (not_lt.mp hlt), mul_assoc,
        div_mul_cancel₀ _ (ne_of_gt hm)]
  · rw [if_neg (fun hc => by omega)]
    unfold estimated_clv order_frequency_per_month lifetime_months
    rw [← hz]
    norm_num

/-- Witness for the amended C2 at a concrete customer (61-day lifetime,
2 orders, average order value 10). -/
theorem C2_amended_clv_closed_form_witness :
    estimated_clv 61 2 10 =
      if 0 < (61 : ℤ) ∧ lifetime_months 61 < 1 then
        10 * 2 / lifetime_months 61
      else 10 * 2 :=
  C2_amended_clv_closed_form 61 2 10 (by norm_num)

/-! ### C3: combined opportunity score -/

theorem blend_bounds {a b wa wb : ℚ} (ha0 : 0 ≤ a) (ha1 : a ≤ 1)
    (hb0 : 0 ≤ b) (hb1 : b ≤ 1) (hwa : 0 ≤ wa) (hwb : 0 ≤ wb)
    (hw : wa + wb = 1) : 0 ≤ a * wa + b * wb ∧ a * wa + b * wb ≤ 1 := by
  constructor <;> nlinarith

theorem untapped_score_bounds {u mu : ℚ} (h0 : 0 ≤ u) (h : u ≤ mu) :
    0 ≤ untapped_score u mu ∧ untapped_score u mu ≤ 1 := by
  unfold untapped_score
  split_ifs with hmu
  · exact ⟨div_nonneg h0 hmu.le, (div_le_one hmu).mpr h⟩
  · norm_num

theorem penetration_growth_score_bounds {p mp : ℚ} (h0 : 0 ≤ p)
    (h : p ≤ mp) : 0 ≤ penetration_growth_score p mp ∧
      penetration_growth_score p mp ≤ 1 := by
  unfold penetration_growth_score
  split_ifs with hmp
  · constructor
    · have : p / mp ≤ 1 := (div_le_one hmp).mpr h
      linarith
    · have : 0 ≤ p / mp := div_nonneg h0 hmp.le
      linarith
  · norm_num

theorem delivery_score_bounds {d md : ℚ} (h0 : 0 ≤ d) (h : d ≤ md) :
    0 ≤ delivery_score d md ∧ delivery_score d md ≤ 1 := by
  unfold delivery_score
  split_ifs with hmd
  · constructor
    · have : d / md ≤ 1 := (div_le_one hmd).mpr h
      linarith
    · have : 0 ≤ d / md := div_nonneg h0 hmd.le
      linarith
  · norm_num

/-- C3: the combined opportunity score is the fixed 0.35/0.30/0.20/0.15
weighting of the four sub-scores and, whenever the raw inputs respect their
normalized bounds (non-negative population/GDP/untapped revenue/penetration
rate/delivery days, each at most the state maximum, urban rate and seller
efficiency in [0,1]), it lies in [0,1]. -/
theorem C3_combined_opportunity_score_bounds
    (pop max_pop gdp max_gdp untapped max_untapped pen max_pen d max_d
      urban : ℚ) (se : Option ℚ)
    (hpop0 : 0 ≤ pop) (hpop : pop ≤ max_pop) (hpopm : 0 < max_pop)
    (hgdp0 : 0 ≤ gdp) (hgdp : gdp ≤ max_gdp) (hgdpm : 0 < max_gdp)
    (hu0 : 0 ≤ untapped) (hu : untapped ≤ max_untapped)
    (hp0 : 0 ≤ pen) (hp : pen ≤ max_pen)
    (hd0 : 0 ≤ d) (hd : d ≤ max_d)
    (hub0 : 0 ≤ urban) (hub1 : urban ≤ 1)
    (hse : ∀ x, se = some x → 0 ≤ x ∧ x ≤ 1) :
    combined_opportunity_score (market_size_score pop max_pop gdp max_gdp)
        (growth_potential_score untapped max_untapped pen max_pen)
        (operational_feasibility_score d max_d urban)
        (competitive_score se) =
      0.35 * market_size_score pop max_pop gdp max_gdp +
        0.30 * growth_potential_score untapped max_untapped pen max_pen +
        0.20 * operational_feasibility_score d max_d urban +
        0.15 * competitive_score se ∧
    0 ≤ combined_opportunity_score
        (market_size_score pop max_pop gdp max_gdp)
        (growth_potential_score untapped max_untapped pen max_pen)
        (operational_feasibility_score d max_d urban)
        (competitive_score se) ∧
    combined_opportunity_score
        (market_size_score pop max_pop gdp max_gdp)
        (growth_potential_score untapped max_untapped pen max_pen)
        (operational_feasibility_score d max_d urban)
        (competitive_score se) ≤ 1 := by
  have hms : 0 ≤ market_size_score pop max_pop gdp max_gdp ∧
      market_size_score pop max_pop gdp max_gdp ≤ 1 := by
    unfold market_size_score
    exact blend_bounds (div_nonneg hpop0 hpopm.le)
      ((div_le_one hpopm).mpr hpop) (div_nonneg hgdp0 hgdpm.le)
      ((div_le_one hgdpm).mpr hgdp) (by norm_num) (by norm_num) (by norm_num)
  have hgp : 0 ≤ growth_potential_score untapped max_untapped pen max_pen ∧
      growth_potential_score untapped max_untapped pen max_pen ≤ 1 := by
    unfold growth_potential_score
    obtain ⟨h1, h2⟩ := untapped_score_bounds hu0 hu
    obtain ⟨h3, h4⟩ := penetration_growth_score_bounds hp0 hp
    exact blend_bounds h1 h2 h3 h4 (by norm_num) (by norm_num) (by norm_num)
  have hopf : 0 ≤ operational_feasibility_score d max_d urban ∧
      operational_feasibility_score d max_d urban ≤ 1 := by
    unfold operational_feasibility_score
    obtain ⟨h1, h2⟩ := delivery_score_bounds hd0 hd
    exact blend_bounds h1 h2 hub0 hub1 (by norm_num) (by norm_num)
      (by norm_num)
  have hcs : 0 ≤ competitive_score se ∧ competitive_score se ≤ 1 := by
    unfold competitive_score
    cases se with
    | none => norm_num [Option.getD]
    | some x =>
      obtain ⟨h1, h2⟩ := hse x rfl
      simpa [Option.getD] using ⟨h1, h2⟩
  refine ⟨by unfold combined_opportunity_score; ring, ?_, ?_⟩ <;>
    unfold combined_opportunity_score <;> nlinarith [hms.1, hms.2, hgp.1,
      hgp.2, hopf.1, hopf.2, hcs.1, hcs.2]

/-- Witness for C3 at a concrete state (population 1 of max 2, GDP 1 of
max 1, untapped 0 of max 0, penetration 1 of max 2, delivery 3 of max 4,
urban rate 1/2, no seller efficiency). -/
theorem C3_combined_opportunity_score_bounds_witness :
    0 ≤ combined_opportunity_score (market_size_score 1 2 1 1)
        (growth_potential_score 0 0 1 2)
        (operational_feasibility_score 3 4 (1/2))
        (competitive_score none) ∧
    combined_opportunity_score (market_size_score 1 2 1 1)
        (growth_potential_score 0 0 1 2)
        (operational_feasibility_score 3 4 (1/2))
        (competitive_score none) ≤ 1 := by
  have h := C3_combined_opportunity_score_bounds 1 2 1 1 0 0 1 2 3 4 (1/2)
    none (by norm_num) (by norm_num) (by norm_num) (by norm_num)
    (by norm_num) (by norm_num) (by norm_num) (by norm_num) (by norm_num)
    (by norm_num) (by norm_num) (by norm_num) (by norm_num) (by norm_num)
    (fun x hx => by cases hx)
  exact ⟨h.2.1, h.2.2⟩

/-! ### C9: expansion priority outcomes -/

/-- C9 counterexample: two pairs of distinct branches of
`categorize_expansion_priority` produce the same label — the tier-2 branch
at score 0.55 and the tier-3 branch at score 0.6 with population 3,000,000
both return "Medium Priority", and the tier-2 branch at score 0.4 and the
tier-3 branch at score 0.4 with population 2,000,001 both return
"Low Priority" — so the branch structure does not admit nine distinct
outcome labels. -/
theorem C9_priority_counterexample :
    categorize_expansion_priority 2 0.55 3000000 = "Medium Priority" ∧
    categorize_expansion_priority 3 0.6 3000000 = "Medium Priority" ∧
    categorize_expansion_priority 2 0.4 2000001 = "Low Priority" ∧
    categorize_expansion_priority 3 0.4 2000001 = "Low Priority" := by
  refine ⟨?_, ?_, ?_, ?_⟩
  all_goals
    unfold categorize_expansion_priority
    norm_num

/-- C9 amended: `expansion_priority` is a pure nested if/else decision
function of (tier, combined score, population) with eight branches and
exactly six distinct outcome labels: every input maps into the six-element
label list (pairwise distinct), and each label is attained. -/
theorem C9_amended_six_priority_labels :
    (∀ (tier : ℤ) (score population : ℚ),
      categorize_expansion_priority tier score population ∈
        priority_labels) ∧
    categorize_expansion_priority 1 0.6 0 = "Optimization Priority" ∧
    categorize_expansion_priority 1 0 0 = "Maintain & Optimize" ∧
    categorize_expansion_priority 2 0.7 0 = "High Priority" ∧
    categorize_expansion_priority 2 0.5 0 = "Medium Priority" ∧
    categorize_expansion_priority 2 0 0 = "Low Priority" ∧
    categorize_expansion_priority 3 0 0 = "Not Recommended" ∧
    priority_labels.Nodup ∧ priority_labels.length = 6 := by
  refine ⟨?_, ?_, ?_, ?_, ?_, ?_, ?_, by decide, by decide⟩
  · intro tier score population
    unfold categorize_expansion_priority
    split_ifs <;> decide
  all_goals
    unfold categorize_expansion_priority
    norm_num

/-! ### C10: the on-time delivery flag -/

/-- C10: `on_time_delivery` is present only when the delivered-to-customer
and estimated-delivery dates are both present (it stays missing whenever
either is absent), and when present it is true exactly when
`delivery_vs_estimate_days ≤ 0`; in particular an order delivered exactly
on its estimated date is on time. -/
theorem C10_on_time_delivery_semantics (r : DeliveredOrder) :
    (∀ b, on_time_delivery r = some b →
      r.delivered_customer.isSome ∧ r.estimated_delivery.isSome ∧
        (b = true ↔ ∃ dv, delivery_vs_estimate_days r = some dv ∧ dv ≤ 0)) ∧
    (r.delivered_customer = none ∨ r.estimated_delivery = none →
      on_time_delivery r = none) ∧
    (∀ c p, r.delivered_customer = some c → r.purchase = some p →
      r.estimated_delivery = some c → on_time_delivery r = some true) := by
  obtain ⟨p, dc, ed⟩ := r
  refine ⟨?_, ?_, ?_⟩
  · intro b hb
    cases p <;> cases dc <;> cases ed <;>
      simp_all [on_time_delivery, delivery_vs_estimate_days]
    simp [← hb]
  · intro h
    cases p <;> cases dc <;> cases ed <;>
      simp_all [on_time_delivery, delivery_vs_estimate_days]
  · intro c q hdc hp hed
    subst hdc hp hed
    simp [on_time_delivery, delivery_vs_estimate_days]

/-- Witness for C10: a concrete order delivered exactly on its estimated
date (day 10, purchased day 0) is flagged on time. -/
theorem C10_on_time_delivery_semantics_witness :
    on_time_delivery ⟨some 0, some 10, some 10⟩ = some true :=
  (C10_on_time_delivery_semantics ⟨some 0, some 10, some 10⟩).2.2 10 0
    rfl rfl rfl

/-! ### C8: absent tables vs absent columns in `clean_missing_values` -/

/-- C8 counterexample: a present orders table lacking the `order_status`
column makes `clean_missing_values` raise `KeyError` (its column accesses
are unguarded), instead of skipping the step. -/
theorem C8_missing_column_counterexample :
    clean_missing_values_columns
      { orders := some ⟨["order_id", "customer_id"]⟩, products := none,
        order_reviews := none, order_payments := none } =
      Except.error "KeyError: order_status" := by
  rfl

theorem seqE_ok {a b : Except String Unit} :
    seqE a b = Except.ok () ↔ a = Except.ok () ∧ b = Except.ok () := by
  cases a with
  | ok u => cases u; simp [seqE]
  | error e => simp [seqE]

theorem requireAll_ok {t : TableCols} {cs : List String} :
    requireAll t cs = Except.ok () ↔ ∀ c ∈ cs, c ∈ t.cols := by
  induction cs with
  | nil => simp [requireAll]
  | cons c cs ih =>
    simp only [requireAll, seqE_ok, getColumn]
    split_ifs with hc
    · simp [hc, ih]
    · simp [hc]

theorem requireColumns_ok {t : Option TableCols} {cs : List String} :
    requireColumns t cs = Except.ok () ↔
      ∀ u, t = some u → ∀ c ∈ cs, c ∈ u.cols := by
  cases t with
  | none => simp [requireColumns]
  | some u => simp [requireColumns, requireAll_ok]

/-- C8 amended: the cleaner never raises on an *absent table* — every
table-level step of `clean_missing_values` is guarded and silently skipped —
but absent *columns* of a present table are not tolerated: the step
succeeds exactly when every present table still carries all the columns the
step indexes unconditionally, and otherwise raises `KeyError` (column
guards exist only in the type-conversion and foreign-key steps). -/
theorem C8_amended_present_columns_iff_ok (ts : RawTables) :
    clean_missing_values_columns ts = Except.ok () ↔
      ((∀ u, ts.orders = some u →
          ∀ c ∈ ordersAccessedColumns, c ∈ u.cols) ∧
       (∀ u, ts.products = some u →
          ∀ c ∈ productsAccessedColumns, c ∈ u.cols) ∧
       (∀ u, ts.order_reviews = some u →
          ∀ c ∈ reviewsAccessedColumns, c ∈ u.cols) ∧
       (∀ u, ts.order_payments = some u →
          ∀ c ∈ paymentsAccessedColumns, c ∈ u.cols)) := by
  unfold clean_missing_values_columns
  rw [seqE_ok, seqE_ok, seqE_ok, requireColumns_ok, requireColumns_ok,
    requireColumns_ok, requireColumns_ok]

/-- Witness for the amended C8: with every table absent, every step is
skipped and the cleaner succeeds. -/
theorem C8_amended_present_columns_iff_ok_witness :
    clean_missing_values_columns ⟨none, none, none, none⟩ =
      Except.ok () :=
  (C8_amended_present_columns_iff_ok ⟨none, none, none, none⟩).mpr
    ⟨fun _u h => (nomatch h), fun _u h => (nomatch h),
     fun _u h => (nomatch h), fun _u h => (nomatch h)⟩

/-! ### C4: the insufficient-data sentinel of the forecaster -/

/-- C4: when fewer than 10 rows remain after the lag-induced drop,
`build_demand_forecasting_model` returns the explicit
`{'error': 'Insufficient data for forecasting'}` sentinel (no model is
fitted, no forecasts produced, nothing raised); with 10 or more rows it
proceeds and produces forecasts. -/
theorem C4_insufficient_data_sentinel (pR pO : FeatureVec → ℚ)
    (monthly : List MonthlyRow) :
    (((sortMonthly monthly).drop 3).length < 10 →
      build_demand_forecasting_model pR pO monthly =
        Except.error "Insufficient data for forecasting") ∧
    (10 ≤ ((sortMonthly monthly).drop 3).length →
      ∃ fs, build_demand_forecasting_model pR pO monthly =
        Except.ok fs) := by
  constructor
  · intro h
    unfold build_demand_forecasting_model
    rw [dif_pos h]
  · intro h
    unfold build_demand_forecasting_model
    rw [dif_neg (by omega)]
    exact ⟨_, rfl⟩

/-- Witness for C4: the empty input aborts with the sentinel; the 13-row
fixture (10 post-lag rows) forecasts. -/
theorem C4_insufficient_data_sentinel_witness :
    build_demand_forecasting_model (fun _ => 0) (fun _ => 0) [] =
      Except.error "Insufficient data for forecasting" ∧
    ∃ fs, build_demand_forecasting_model (fun _ => 0) (fun _ => 0)
      sampleMonthly13 = Except.ok fs := by
  constructor
  · exact (C4_insufficient_data_sentinel (fun _ => 0) (fun _ => 0) []).1
      (by decide)
  · exact (C4_insufficient_data_sentinel (fun _ => 0) (fun _ => 0)
      sampleMonthly13).2 (by decide)

/-! ### C5: forecast months are sequential successors -/

theorem next_ym_eq_succYM {y m : ℤ} (h1 : 1 ≤ m) (h2 : m ≤ 12) :
    (next_year y m 1, next_month m 1) = succYM (y, m) ∧
    (next_year y m 2, next_month m 2) = succYM (succYM (y, m)) ∧
    (next_year y m 3, next_month m 3) = succYM (succYM (succYM (y, m))) := by
  unfold next_year next_month succYM
  interval_cases m <;> simp [Prod.ext_iff]

/-- C5: whenever `build_demand_forecasting_model` produces forecasts (input
months being calendar months 1..12), the forecast list has length exactly 3
and its (year, month) pairs are the three strictly sequential successors of
the last observed month, with December wrapping to January of the
incremented year. -/
theorem C5_forecast_months_sequential (pR pO : FeatureVec → ℚ)
    (monthly : List MonthlyRow) (fs : List Forecast)
    (hm : ∀ r ∈ monthly, 1 ≤ r.month ∧ r.month ≤ 12)
    (hok : build_demand_forecasting_model pR pO monthly = Except.ok fs) :
    fs.length = 3 ∧
    ∃ y m, lastObservedYM monthly = some (y, m) ∧
      fs.map (fun f => (f.year, f.month)) =
        [succYM (y, m), succYM (succYM (y, m)),
         succYM (succYM (succYM (y, m)))] := by
  unfold build_demand_forecasting_model at hok
  by_cases h : ((sortMonthly monthly).drop 3).length < 10
  · rw [dif_pos h] at hok
    cases hok
  · rw [dif_neg h] at hok
    have hne : (sortMonthly monthly).drop 3 ≠ [] :=
      List.length_pos.mp (by omega)
    set md := (sortMonthly monthly).drop 3 with hmd
    set last := md.getLast (List.length_pos.mp (by omega)) with hlast
    have hfs : fs = forecast3 pR pO md last := by
      cases hok
      rfl
    have hmem : last ∈ monthly := by
      have h1 : last ∈ md := List.getLast_mem _
      have h2 : last ∈ sortMonthly monthly := (List.drop_subset 3 _) h1
      exact (List.perm_insertionSort monthlyRowLE monthly).subset h2
    obtain ⟨hm1, hm2⟩ := hm last hmem
    obtain ⟨e1, e2, e3⟩ := next_ym_eq_succYM (y := last.year) hm1 hm2
    refine ⟨by rw [hfs]; rfl, last.year, last.month, ?_, ?_⟩
    · unfold lastObservedYM
      rw [← hmd, List.getLast?_eq_getLast md hne]
      rfl
    · rw [hfs]
      simp only [forecast3, List.map_cons, List.map_nil]
      rw [e1, e2, e3]

/-- Witness for C5: on the wrap fixture (last observed month December
2016), the three forecast months are January, February, March 2017. -/
theorem C5_forecast_months_sequential_witness :
    ∃ fs, build_demand_forecasting_model (fun _ => 0) (fun _ => 0)
        sampleMonthlyWrap = Except.ok fs ∧
      fs.length = 3 ∧
      ∃ y m, lastObservedYM sampleMonthlyWrap = some (y, m) ∧
        fs.map (fun f => (f.year, f.month)) =
          [succYM (y, m), succYM (succYM (y, m)),
           succYM (succYM (succYM (y, m)))] := by
  obtain ⟨fs, hfs⟩ : ∃ fs, build_demand_forecasting_model (fun _ => 0)
      (fun _ => 0) sampleMonthlyWrap = Except.ok fs := by
    unfold build_demand_forecasting_model
    rw [dif_neg (by decide)]
    exact ⟨_, rfl⟩
  exact ⟨fs, hfs, C5_forecast_months_sequential (fun _ => 0) (fun _ => 0)
    sampleMonthlyWrap fs (by decide) hfs⟩

/-! ### C7: idempotence of the cleaning pipeline -/

theorem medianQ_nil : medianQ [] = none := rfl

theorem medianQ_isSome {l : List ℚ} (h : l ≠ []) :
    ∃ m, medianQ l = some m := by
  have hlen : (l.insertionSort (· ≤ ·)).length = l.length :=
    List.length_insertionSort _ _
  have hpos : 0 < (l.insertionSort (· ≤ ·)).length := by
    rw [hlen]
    exact List.length_pos.mpr h
  unfold medianQ
  rw [if_neg (by omega)]
  split_ifs with hodd
  · rw [List.get?_eq_get (Nat.div_lt_self hpos one_lt_two)]
    exact ⟨_, rfl⟩
  · have h2 : 2 ≤ (l.insertionSort (· ≤ ·)).length := by omega
    have hi1 : (l.insertionSort (· ≤ ·)).length / 2 - 1 <
        (l.insertionSort (· ≤ ·)).length := by
      have := Nat.div_lt_self hpos (show 1 < 2 by norm_num)
      omega
    have hi2 : (l.insertionSort (· ≤ ·)).length / 2 <
        (l.insertionSort (· ≤ ·)).length :=
      Nat.div_lt_self hpos (by norm_num)
    rw [List.get?_eq_get hi1, List.get?_eq_get hi2]
    exact ⟨_, rfl⟩

theorem mem_of_medianQ_arith {l : List ℚ} {m : ℚ}
    (hm : medianQ l = some m) :
    (∃ a ∈ l, m = a) ∨ ∃ a ∈ l, ∃ b ∈ l, m = (a + b) / 2 := by
  have hperm := List.perm_insertionSort (· ≤ · : ℚ → ℚ → Prop) l
  set s := l.insertionSort (· ≤ ·) with hs
  by_cases h0 : s.length = 0
  · have : (none : Option ℚ) = some m := by
      rw [← hm]
      simp only [medianQ, ← hs]
      rw [if_pos h0]
    cases this
  · by_cases hodd : s.length % 2 = 1
    · have hdef : medianQ l = s.get? (s.length / 2) := by
        simp only [medianQ, ← hs]
        rw [if_neg h0, if_pos hodd]
      rw [hdef] at hm
      left
      exact ⟨m, hperm.subset (List.get?_mem hm), rfl⟩
    · have hdef : medianQ l = (do
          let a ← s.get? (s.length / 2 - 1)
          let b ← s.get? (s.length / 2)
          pure ((a + b) / 2)) := by
        simp only [medianQ, ← hs]
        rw [if_neg h0, if_neg hodd]
      rw [hdef] at hm
      right
      cases ha : s.get? (s.length / 2 - 1) with
      | none =>
        rw [ha] at hm
        have : (none : Option ℚ) = some m := hm
        cases this
      | some a =>
        cases hb : s.get? (s.length / 2) with
        | none =>
          rw [ha, hb] at hm
          have : (none : Option ℚ) = some m := hm
          cases this
        | some b =>
          rw [ha, hb] at hm
          have h2 : some ((a + b) / 2) = some m := hm
          cases h2
          exact ⟨a, hperm.subset (List.get?_mem ha), b,
            hperm.subset (List.get?_mem hb), rfl⟩

theorem medianQ_pos {l : List ℚ} (hl : ∀ x ∈ l, 0 < x) {m : ℚ}
    (hm : medianQ l = some m) : 0 < m := by
  rcases mem_of_medianQ_arith hm with ⟨a, ha, rfl⟩ | ⟨a, ha, b, hb, rfl⟩
  · exact hl _ ha
  · have h1 := hl a ha
    have h2 := hl b hb
    have h3 : 0 < a + b := by linarith
    linarith [div_pos h3 (show (0:ℚ) < 2 by norm_num)]

/-! #### Products: column postconditions of one imputation pass -/

/-- After a pass, a dimension column is either free of missing values or
entirely missing. -/
def colDichotomy (get : ProductRow → Option ℚ) (l : List ProductRow) :
    Prop :=
  (∀ r ∈ l, (get r).isNone = false) ∨ (∀ r ∈ l, get r = none)

/-- After a pass, a dimension column either has no non-positive value left
or never had a positive value to fix with. -/
def colNoFixable (get : ProductRow → Option ℚ) (l : List ProductRow) :
    Prop :=
  (∀ r ∈ l, cellInvalid (get r) = false) ∨
    (∀ r ∈ l, ∀ v, get r = some v → v ≤ 0)

/-- Every row of `l2` carries, under projection `φ`, a value some row of
`l` already carried (cleaning steps of other columns and deduplication
preserve this). -/
def projFrom {γ : Type} (φ : ProductRow → γ) (l l2 : List ProductRow) :
    Prop :=
  ∀ s ∈ l2, ∃ r ∈ l, φ s = φ r

theorem projFrom_trans {γ : Type} {φ : ProductRow → γ} {l l2 l3 :
    List ProductRow} (h1 : projFrom φ l l2) (h2 : projFrom φ l2 l3) :
    projFrom φ l l3 := by
  intro s hs
  obtain ⟨t, ht, hts⟩ := h2 s hs
  obtain ⟨r, hr, hrt⟩ := h1 t ht
  exact ⟨r, hr, hts.trans hrt⟩

theorem projFrom_of_subset {γ : Type} {φ : ProductRow → γ}
    {l l2 : List ProductRow} (h : ∀ s ∈ l2, s ∈ l) : projFrom φ l l2 :=
  fun s hs => ⟨s, h s hs, rfl⟩

theorem colDichotomy_of_projFrom {get : ProductRow → Option ℚ}
    {l l2 : List ProductRow} (hp : projFrom get l l2)
    (h : colDichotomy get l) : colDichotomy get l2 := by
  rcases h with h | h
  · left
    intro s hs
    obtain ⟨r, hr, he⟩ := hp s hs
    rw [he]
    exact h r hr
  · right
    intro s hs
    obtain ⟨r, hr, he⟩ := hp s hs
    rw [he]
    exact h r hr

theorem colNoFixable_of_projFrom {get : ProductRow → Option ℚ}
    {l l2 : List ProductRow} (hp : projFrom get l l2)
    (h : colNoFixable get l) : colNoFixable get l2 := by
  rcases h with h | h
  · left
    intro s hs
    obtain ⟨r, hr, he⟩ := hp s hs
    rw [he]
    exact h r hr
  · right
    intro s hs
    obtain ⟨r, hr, he⟩ := hp s hs
    rw [he]
    exact h r hr

/-! #### Products: shapes of the imputation phases -/

theorem fillDimA_shape {get : ProductRow → Option ℚ}
    {set : ProductRow → Option ℚ → ProductRow} {l : List ProductRow}
    {s : ProductRow} (hs : s ∈ fillDimA get set l) :
    ∃ r ∈ l, s = r ∨ ∃ v, s = set r v := by
  obtain ⟨r, hr, rfl⟩ := List.mem_map.mp hs
  refine ⟨r, hr, ?_⟩
  dsimp only
  split_ifs
  · exact Or.inr ⟨_, rfl⟩
  · exact Or.inl rfl

theorem fillDimB_shape {get : ProductRow → Option ℚ}
    {set : ProductRow → Option ℚ → ProductRow} {l : List ProductRow}
    {s : ProductRow} (hs : s ∈ fillDimB get set l) :
    ∃ r ∈ l, s = r ∨ ∃ v, s = set r v := by
  unfold fillDimB at hs
  split_ifs at hs
  · exact ⟨s, hs, Or.inl rfl⟩
  · obtain ⟨r, hr, rfl⟩ := List.mem_map.mp hs
    refine ⟨r, hr, ?_⟩
    dsimp only
    split_ifs
    · exact Or.inr ⟨_, rfl⟩
    · exact Or.inl rfl

theorem fill_missing_dimension_shape {get : ProductRow → Option ℚ}
    {set : ProductRow → Option ℚ → ProductRow}
    (law_ss : ∀ r v w, set (set r v) w = set r w) {l : List ProductRow}
    {s : ProductRow} (hs : s ∈ fill_missing_dimension get set l) :
    ∃ r ∈ l, s = r ∨ ∃ v, s = set r v := by
  unfold fill_missing_dimension at hs
  split_ifs at hs
  · exact ⟨s, hs, Or.inl rfl⟩
  · obtain ⟨t, ht, hshape⟩ := fillDimB_shape hs
    obtain ⟨r, hr, hshape2⟩ := fillDimA_shape ht
    refine ⟨r, hr, ?_⟩
    rcases hshape with rfl | ⟨v, rfl⟩
    · exact hshape2
    · rcases hshape2 with rfl | ⟨w, rfl⟩
      · exact Or.inr ⟨v, rfl⟩
      · exact Or.inr ⟨v, law_ss r w v⟩

theorem fixDimA_shape {get : ProductRow → Option ℚ}
    {set : ProductRow → Option ℚ → ProductRow} {l : List ProductRow}
    {s : ProductRow} (hs : s ∈ fixDimA get set l) :
    ∃ r ∈ l, s = r ∨ ∃ m : ℚ, s = set r (some m) := by
  obtain ⟨r, hr, rfl⟩ := List.mem_map.mp hs
  refine ⟨r, hr, ?_⟩
  dsimp only
  split_ifs
  · cases hmed : catPosMedianOf get l r.product_category_name with
    | none => simp [hmed]
    | some m =>
      simp only [hmed]
      split_ifs
      · exact Or.inr ⟨m, rfl⟩
      · exact Or.inl rfl
  · exact Or.inl rfl

theorem fixDimB_shape {get : ProductRow → Option ℚ}
    {set : ProductRow → Option ℚ → ProductRow} {l : List ProductRow}
    {s : ProductRow} (hs : s ∈ fixDimB get set l) :
    ∃ r ∈ l, s = r ∨ ∃ m : ℚ, s = set r (some m) := by
  unfold fixDimB at hs
  split_ifs at hs
  · exact ⟨s, hs, Or.inl rfl⟩
  · rename_i hmatch
    revert hs
    cases hmed : medianQ ((l.filterMap get).filter (fun v => 0 < v)) with
    | none =>
      intro hs
      exact ⟨s, hs, Or.inl rfl⟩
    | some m =>
      intro hs
      dsimp only at hs
      split_ifs at hs
      · obtain ⟨r, hr, rfl⟩ := List.mem_map.mp hs
        refine ⟨r, hr, ?_⟩
        dsimp only
        split_ifs
        · exact Or.inr ⟨m, rfl⟩
        · exact Or.inl rfl
      · exact ⟨s, hs, Or.inl rfl⟩

theorem fix_invalid_dimension_shape {get : ProductRow → Option ℚ}
    {set : ProductRow → Option ℚ → ProductRow}
    (law_ss : ∀ r v w, set (set r v) w = set r w) {l : List ProductRow}
    {s : ProductRow} (hs : s ∈ fix_invalid_dimension get set l) :
    ∃ r ∈ l, s = r ∨ ∃ m : ℚ, s = set r (some m) := by
  unfold fix_invalid_dimension at hs
  split_ifs at hs
  · exact ⟨s, hs, Or.inl rfl⟩
  · obtain ⟨t, ht, hshape⟩ := fixDimB_shape hs
    obtain ⟨r, hr, hshape2⟩ := fixDimA_shape ht
    refine ⟨r, hr, ?_⟩
    rcases hshape with h1 | ⟨m, h1⟩
    · subst h1
      exact hshape2
    · rcases hshape2 with h2 | ⟨m2, h2⟩
      · subst h2
        exact Or.inr ⟨m, h1⟩
      · subst h2
        rw [law_ss] at h1
        exact Or.inr ⟨m, h1⟩

theorem projFrom_fill {γ : Type} {φ : ProductRow → γ}
    {get : ProductRow → Option ℚ}
    {set : ProductRow → Option ℚ → ProductRow}
    (law_ss : ∀ r v w, set (set r v) w = set r w)
    (hproj : ∀ r v, φ (set r v) = φ r) (l : List ProductRow) :
    projFrom φ l (fill_missing_dimension get set l) := by
  intro s hs
  obtain ⟨r, hr, hshape⟩ := fill_missing_dimension_shape law_ss hs
  rcases hshape with h1 | ⟨v, h1⟩
  · exact ⟨r, hr, by rw [h1]⟩
  · exact ⟨r, hr, by rw [h1, hproj]⟩

theorem projFrom_fix {γ : Type} {φ : ProductRow → γ}
    {get : ProductRow → Option ℚ}
    {set : ProductRow → Option ℚ → ProductRow}
    (law_ss : ∀ r v w, set (set r v) w = set r w)
    (hproj : ∀ r v, φ (set r v) = φ r) (l : List ProductRow) :
    projFrom φ l (fix_invalid_dimension get set l) := by
  intro s hs
  obtain ⟨r, hr, hshape⟩ := fix_invalid_dimension_shape law_ss hs
  rcases hshape with h1 | ⟨m, h1⟩
  · exact ⟨r, hr, by rw [h1]⟩
  · exact ⟨r, hr, by rw [h1, hproj]⟩

/-! #### Products: the imputation steps are inert on their own output -/

theorem fill_missing_dimension_eq_self_of_no_missing
    {get : ProductRow → Option ℚ}
    {set : ProductRow → Option ℚ → ProductRow} {l : List ProductRow}
    (h : ∀ r ∈ l, (get r).isNone = false) :
    fill_missing_dimension get set l = l := by
  unfold fill_missing_dimension
  rw [if_pos]
  rw [List.length_eq_zero, List.filter_eq_nil_iff]
  intro r hr
  simp [h r hr]

theorem catMedianOf_eq_none {get : ProductRow → Option ℚ}
    {l : List ProductRow} {c : Option String}
    (h : ∀ r ∈ l, get r = none) : catMedianOf get l c = none := by
  have hfm : (l.filter
      (fun r => r.product_category_name = c)).filterMap get = [] := by
    rw [List.filterMap_eq_nil_iff]
    intro r hr
    exact h r (List.mem_of_mem_filter hr)
  unfold catMedianOf
  rw [hfm, medianQ_nil]

theorem fillDimA_eq_self_of_all_missing {get : ProductRow → Option ℚ}
    {set : ProductRow → Option ℚ → ProductRow}
    (law_id : ∀ r, set r (get r) = r) {l : List ProductRow}
    (h : ∀ r ∈ l, get r = none) : fillDimA get set l = l := by
  unfold fillDimA
  apply map_eq_self_of_forall
  intro r hr
  split_ifs with hc
  · rw [catMedianOf_eq_none h, ← h r hr, law_id]
  · rfl

theorem fillDimB_eq_self_of_all_missing {get : ProductRow → Option ℚ}
    {set : ProductRow → Option ℚ → ProductRow}
    (law_id : ∀ r, set r (get r) = r) {l : List ProductRow}
    (h : ∀ r ∈ l, get r = none) : fillDimB get set l = l := by
  unfold fillDimB
  split_ifs with hg
  · rfl
  · have hfm : l.filterMap get = [] := List.filterMap_eq_nil_iff.mpr h
    rw [hfm, medianQ_nil]
    apply map_eq_self_of_forall
    intro r hr
    split_ifs with hc
    · rw [← h r hr, law_id]
    · rfl

theorem fill_missing_dimension_eq_self_of_all_missing
    {get : ProductRow → Option ℚ}
    {set : ProductRow → Option ℚ → ProductRow}
    (law_id : ∀ r, set r (get r) = r) {l : List ProductRow}
    (h : ∀ r ∈ l, get r = none) : fill_missing_dimension get set l = l := by
  unfold fill_missing_dimension
  split_ifs with hg
  · rfl
  · rw [fillDimA_eq_self_of_all_missing law_id h,
      fillDimB_eq_self_of_all_missing law_id h]

theorem fill_eq_self_of_colDichotomy {get : ProductRow → Option ℚ}
    {set : ProductRow → Option ℚ → ProductRow}
    (law_id : ∀ r, set r (get r) = r) {l : List ProductRow}
    (h : colDichotomy get l) : fill_missing_dimension get set l = l := by
  rcases h with h | h
  · exact fill_missing_dimension_eq_self_of_no_missing h
  · exact fill_missing_dimension_eq_self_of_all_missing law_id h

theorem fill_missing_dimension_post {get : ProductRow → Option ℚ}
    {set : ProductRow → Option ℚ → ProductRow}
    (law_gs : ∀ r v, get (set r v) = v) (l : List ProductRow) :
    colDichotomy get (fill_missing_dimension get set l) := by
  unfold fill_missing_dimension
  split_ifs with hg
  · left
    rw [List.length_eq_zero, List.filter_eq_nil_iff] at hg
    intro r hr
    cases hgr : (get r).isNone with
    | false => rfl
    | true => exact absurd hgr (hg r hr)
  · unfold fillDimB
    split_ifs with hB
    · left
      rw [List.length_eq_zero, List.filter_eq_nil_iff] at hB
      intro r hr
      cases hgr : (get r).isNone with
      | false => rfl
      | true => exact absurd hgr (hB r hr)
    · cases hfm : (fillDimA get set l).filterMap get with
      | nil =>
        right
        have hall : ∀ a ∈ fillDimA get set l, get a = none :=
          List.filterMap_eq_nil_iff.mp hfm
        intro s hs
        rw [medianQ_nil] at hs
        obtain ⟨r, hr, rfl⟩ := List.mem_map.mp hs
        split_ifs with hc
        · rw [law_gs]
        · exact hall r hr
      | cons q qs =>
        left
        obtain ⟨m, hm⟩ := medianQ_isSome
          (l := q :: qs) (by simp)
        intro s hs
        rw [hm] at hs
        obtain ⟨r, hr, rfl⟩ := List.mem_map.mp hs
        split_ifs with hc
        · rw [law_gs]
          rfl
        · cases hgr : (get r).isNone with
          | false => rfl
          | true => exact absurd hgr hc

theorem fix_invalid_dimension_eq_self_of_no_invalid
    {get : ProductRow → Option ℚ}
    {set : ProductRow → Option ℚ → ProductRow} {l : List ProductRow}
    (h : ∀ r ∈ l, cellInvalid (get r) = false) :
    fix_invalid_dimension get set l = l := by
  unfold fix_invalid_dimension
  rw [if_pos]
  rw [List.length_eq_zero, List.filter_eq_nil_iff]
  intro r hr
  simp [h r hr]

theorem catPosMedianOf_eq_none_of_no_positive {get : ProductRow → Option ℚ}
    {l : List ProductRow} {c : Option String}
    (h : ∀ r ∈ l, ∀ v, get r = some v → v ≤ 0) :
    catPosMedianOf get l c = none := by
  have hfe : ((l.filter (fun r => r.product_category_name = c)).filterMap
      get).filter (fun v => 0 < v) = [] := by
    rw [List.filter_eq_nil_iff]
    intro v hv
    obtain ⟨r, hr, hgr⟩ := List.mem_filterMap.mp hv
    have := h r (List.mem_of_mem_filter hr) v hgr
    simp only [decide_eq_true_eq, not_lt]
    linarith
  unfold catPosMedianOf
  rw [hfe, medianQ_nil]

theorem fixDimA_eq_self_of_no_positive {get : ProductRow → Option ℚ}
    {set : ProductRow → Option ℚ → ProductRow} {l : List ProductRow}
    (h : ∀ r ∈ l, ∀ v, get r = some v → v ≤ 0) :
    fixDimA get set l = l := by
  unfold fixDimA
  apply map_eq_self_of_forall
  intro r hr
  split_ifs with hc
  · rw [catPosMedianOf_eq_none_of_no_positive h]
  · rfl

theorem fixDimB_eq_self_of_no_positive {get : ProductRow → Option ℚ}
    {set : ProductRow → Option ℚ → ProductRow} {l : List ProductRow}
    (h : ∀ r ∈ l, ∀ v, get r = some v → v ≤ 0) :
    fixDimB get set l = l := by
  unfold fixDimB
  split_ifs with hg
  · rfl
  · have hfe : (l.filterMap get).filter (fun v => 0 < v) = [] := by
      rw [List.filter_eq_nil_iff]
      intro v hv
      obtain ⟨r, hr, hgr⟩ := List.mem_filterMap.mp hv
      have := h r hr v hgr
      simp only [decide_eq_true_eq, not_lt]
      linarith
    rw [hfe, medianQ_nil]

theorem fix_invalid_dimension_eq_self_of_no_positive
    {get : ProductRow → Option ℚ}
    {set : ProductRow → Option ℚ → ProductRow} {l : List ProductRow}
    (h : ∀ r ∈ l, ∀ v, get r = some v → v ≤ 0) :
    fix_invalid_dimension get set l = l := by
  unfold fix_invalid_dimension
  split_ifs with hg
  · rfl
  · rw [fixDimA_eq_self_of_no_positive h, fixDimB_eq_self_of_no_positive h]

theorem fix_eq_self_of_colNoFixable {get : ProductRow → Option ℚ}
    {set : ProductRow → Option ℚ → ProductRow} {l : List ProductRow}
    (h : colNoFixable get l) : fix_invalid_dimension get set l = l := by
  rcases h with h | h
  · exact fix_invalid_dimension_eq_self_of_no_invalid h
  · exact fix_invalid_dimension_eq_self_of_no_positive h

theorem fix_invalid_dimension_post_of_positive
    {get : ProductRow → Option ℚ}
    {set : ProductRow → Option ℚ → ProductRow}
    (law_gs : ∀ r v, get (set r v) = v) {l : List ProductRow}
    (hpos : ∃ r ∈ l, ∃ v, get r = some v ∧ 0 < v) :
    ∀ s ∈ fix_invalid_dimension get set l, cellInvalid (get s) = false := by
  obtain ⟨r0, hr0, v0, hv0, hv0p⟩ := hpos
  have hr0inv : cellInvalid (get r0) = false := by
    rw [hv0]
    unfold cellInvalid
    simp only [decide_eq_false_iff_not, not_le]
    linarith
  intro s hs
  unfold fix_invalid_dimension at hs
  split_ifs at hs with hg
  · rw [List.length_eq_zero, List.filter_eq_nil_iff] at hg
    simpa using hg s hs
  · have hr0A : r0 ∈ fixDimA get set l := by
      have heq : (fun r =>
          if cellInvalid (get r) && r.product_category_name.isSome then
            match catPosMedianOf get l r.product_category_name with
            | some m => if 0 < m then set r (some m) else r
            | none => r
          else r) r0 = r0 := by
        simp [hr0inv]
      exact heq ▸ List.mem_map_of_mem _ hr0
    unfold fixDimB at hs
    split_ifs at hs with hB
    · rw [List.length_eq_zero, List.filter_eq_nil_iff] at hB
      simpa using hB s hs
    · have hvmem : v0 ∈ ((fixDimA get set l).filterMap get).filter
          (fun v => 0 < v) := by
        apply List.mem_filter.mpr
        exact ⟨List.mem_filterMap.mpr ⟨r0, hr0A, hv0⟩, by simpa using hv0p⟩
      obtain ⟨m, hm⟩ := medianQ_isSome (List.ne_nil_of_mem hvmem)
      have hmp : 0 < m := medianQ_pos
        (fun x hx => by simpa using (List.mem_filter.mp hx).2) hm
      rw [hm] at hs
      have hs2 : s ∈ (if 0 < m then
          (fixDimA get set l).map (fun r =>
            if cellInvalid (get r) = true then set r (some m) else r)
        else fixDimA get set l) := hs
      rw [if_pos hmp] at hs2
      obtain ⟨r, hr, rfl⟩ := List.mem_map.mp hs2
      split_ifs with hc
      · rw [law_gs]
        unfold cellInvalid
        simp only [decide_eq_false_iff_not, not_le]
        linarith
      · simpa using hc

theorem fix_invalid_dimension_post {get : ProductRow → Option ℚ}
    {set : ProductRow → Option ℚ → ProductRow}
    (law_gs : ∀ r v, get (set r v) = v) (l : List ProductRow) :
    colNoFixable get (fix_invalid_dimension get set l) := by
  by_cases hpos : ∃ r ∈ l, ∃ v, get r = some v ∧ 0 < v
  · exact Or.inl (fix_invalid_dimension_post_of_positive law_gs hpos)
  · push_neg at hpos
    rw [fix_invalid_dimension_eq_self_of_no_positive hpos]
    exact Or.inr hpos

theorem colDichotomy_fix {get : ProductRow → Option ℚ}
    {set : ProductRow → Option ℚ → ProductRow}
    (law_gs : ∀ r v, get (set r v) = v)
    (law_ss : ∀ r v w, set (set r v) w = set r w) {l : List ProductRow}
    (h : colDichotomy get l) :
    colDichotomy get (fix_invalid_dimension get set l) := by
  rcases h with h | h
  · left
    intro s hs
    obtain ⟨r, hr, hsh⟩ := fix_invalid_dimension_shape law_ss hs
    rcases hsh with h1 | ⟨m, h1⟩
    · rw [h1]
      exact h r hr
    · rw [h1, law_gs]
      rfl
  · have hninv : ∀ r ∈ l, cellInvalid (get r) = false := fun r hr => by
      rw [h r hr]
      rfl
    rw [fix_invalid_dimension_eq_self_of_no_invalid hninv]
    exact Or.inr h

/-! #### Products: the category fill -/

/-- Every row of `l` has a present (non-NaN) category. -/
def catAllSome (l : List ProductRow) : Prop :=
  ∀ r ∈ l, r.product_category_name.isSome = true

theorem fill_missing_category_cat_isSome (r : ProductRow) :
    (fill_missing_category r).product_category_name.isSome = true := by
  unfold fill_missing_category
  cases hc : r.product_category_name <;> simp [hc]

theorem fill_missing_category_eq_self {r : ProductRow}
    (h : r.product_category_name.isSome = true) :
    fill_missing_category r = r := by
  unfold fill_missing_category
  split_ifs with hc
  · rw [Option.isNone_iff_eq_none] at hc
    rw [hc] at h
    cases h
  · rfl

theorem catAllSome_of_projFrom {l l2 : List ProductRow}
    (hp : projFrom (fun r => r.product_category_name) l l2)
    (h : catAllSome l) : catAllSome l2 := by
  intro s hs
  obtain ⟨r, hr, he⟩ := hp s hs
  simp only at he
  rw [he]
  exact h r hr

theorem projFrom_map_fillCat {γ : Type} {φ : ProductRow → γ}
    (hproj : ∀ r, φ (fill_missing_category r) = φ r) (l : List ProductRow) :
    projFrom φ l (l.map fill_missing_category) := by
  intro s hs
  obtain ⟨r, hr, rfl⟩ := List.mem_map.mp hs
  exact ⟨r, hr, hproj r⟩

theorem projFrom_fillfix {γ : Type} {φ : ProductRow → γ}
    {get : ProductRow → Option ℚ}
    {set : ProductRow → Option ℚ → ProductRow}
    (law_ss : ∀ r v w, set (set r v) w = set r w)
    (hproj : ∀ r v, φ (set r v) = φ r) (l : List ProductRow) :
    projFrom φ l (fix_invalid_dimension get set
      (fill_missing_dimension get set l)) :=
  projFrom_trans (projFrom_fill law_ss hproj l) (projFrom_fix law_ss hproj _)

/-! #### Products: the record-update laws of the four column setters -/

theorem setWeight_ss (r : ProductRow) (v w : Option ℚ) :
    setWeight (setWeight r v) w = setWeight r w := rfl

theorem setLength_ss (r : ProductRow) (v w : Option ℚ) :
    setLength (setLength r v) w = setLength r w := rfl

theorem setHeight_ss (r : ProductRow) (v w : Option ℚ) :
    setHeight (setHeight r v) w = setHeight r w := rfl

theorem setWidth_ss (r : ProductRow) (v w : Option ℚ) :
    setWidth (setWidth r v) w = setWidth r w := rfl

theorem getWeight_setWeight (r : ProductRow) (v : Option ℚ) :
    getWeight (setWeight r v) = v := rfl

theorem getLength_setLength (r : ProductRow) (v : Option ℚ) :
    getLength (setLength r v) = v := rfl

theorem getHeight_setHeight (r : ProductRow) (v : Option ℚ) :
    getHeight (setHeight r v) = v := rfl

theorem getWidth_setWidth (r : ProductRow) (v : Option ℚ) :
    getWidth (setWidth r v) = v := rfl

theorem setWeight_id (r : ProductRow) : setWeight r (getWeight r) = r := rfl

theorem setLength_id (r : ProductRow) : setLength r (getLength r) = r := rfl

theorem setHeight_id (r : ProductRow) : setHeight r (getHeight r) = r := rfl

theorem setWidth_id (r : ProductRow) : setWidth r (getWidth r) = r := rfl

theorem cat_setWeight (r : ProductRow) (v : Option ℚ) :
    (setWeight r v).product_category_name = r.product_category_name := rfl

theorem cat_setLength (r : ProductRow) (v : Option ℚ) :
    (setLength r v).product_category_name = r.product_category_name := rfl

theorem cat_setHeight (r : ProductRow) (v : Option ℚ) :
    (setHeight r v).product_category_name = r.product_category_name := rfl

theorem cat_setWidth (r : ProductRow) (v : Option ℚ) :
    (setWidth r v).product_category_name = r.product_category_name := rfl

theorem getWeight_setLength (r : ProductRow) (v : Option ℚ) :
    getWeight (setLength r v) = getWeight r := rfl

theorem getWeight_setHeight (r : ProductRow) (v : Option ℚ) :
    getWeight (setHeight r v) = getWeight r := rfl

theorem getWeight_setWidth (r : ProductRow) (v : Option ℚ) :
    getWeight (setWidth r v) = getWeight r := rfl

theorem getLength_setWeight (r : ProductRow) (v : Option ℚ) :
    getLength (setWeight r v) = getLength r := rfl

theorem getLength_setHeight (r : ProductRow) (v : Option ℚ) :
    getLength (setHeight r v) = getLength r := rfl

theorem getLength_setWidth (r : ProductRow) (v : Option ℚ) :
    getLength (setWidth r v) = getLength r := rfl

theorem getHeight_setWeight (r : ProductRow) (v : Option ℚ) :
    getHeight (setWeight r v) = getHeight r := rfl

theorem getHeight_setLength (r : ProductRow) (v : Option ℚ) :
    getHeight (setLength r v) = getHeight r := rfl

theorem getHeight_setWidth (r : ProductRow) (v : Option ℚ) :
    getHeight (setWidth r v) = getHeight r := rfl

theorem getWidth_setWeight (r : ProductRow) (v : Option ℚ) :
    getWidth (setWeight r v) = getWidth r := rfl

theorem getWidth_setLength (r : ProductRow) (v : Option ℚ) :
    getWidth (setLength r v) = getWidth r := rfl

theorem getWidth_setHeight (r : ProductRow) (v : Option ℚ) :
    getWidth (setHeight r v) = getWidth r := rfl

/-- After one products pass: every category is present, and every dimension
column satisfies its missing-value dichotomy and its no-fixable-invalid
postcondition. -/
theorem clean_missing_values_products_post (l : List ProductRow) :
    catAllSome (clean_missing_values_products l) ∧
    colDichotomy getWeight (clean_missing_values_products l) ∧
    colNoFixable getWeight (clean_missing_values_products l) ∧
    colDichotomy getLength (clean_missing_values_products l) ∧
    colNoFixable getLength (clean_missing_values_products l) ∧
    colDichotomy getHeight (clean_missing_values_products l) ∧
    colNoFixable getHeight (clean_missing_values_products l) ∧
    colDichotomy getWidth (clean_missing_values_products l) ∧
    colNoFixable getWidth (clean_missing_values_products l) := by
  unfold clean_missing_values_products
  set l0 := l.map fill_missing_category with h0
  set A1 := fill_missing_dimension getWeight setWeight l0 with hA1
  set l1 := fix_invalid_dimension getWeight setWeight A1 with h1
  set A2 := fill_missing_dimension getLength setLength l1 with hA2
  set l2 := fix_invalid_dimension getLength setLength A2 with h2
  set A3 := fill_missing_dimension getHeight setHeight l2 with hA3
  set l3 := fix_invalid_dimension getHeight setHeight A3 with h3
  set A4 := fill_missing_dimension getWidth setWidth l3 with hA4
  set l4 := fix_invalid_dimension getWidth setWidth A4 with h4
  have c4 : catAllSome l4 := by
    have c0 : catAllSome l0 := by
      intro s hs
      rw [h0] at hs
      obtain ⟨r, hr, rfl⟩ := List.mem_map.mp hs
      exact fill_missing_category_cat_isSome r
    have pc : projFrom (fun r => r.product_category_name) l0 l4 := by
      rw [h4, hA4, h3, hA3, h2, hA2, h1, hA1]
      exact projFrom_trans
        (projFrom_fillfix setWeight_ss cat_setWeight l0)
        (projFrom_trans
          (projFrom_fillfix setLength_ss cat_setLength _)
          (projFrom_trans
            (projFrom_fillfix setHeight_ss cat_setHeight _)
            (projFrom_fillfix setWidth_ss cat_setWidth _)))
    exact catAllSome_of_projFrom pc c0
  have dw1 : colDichotomy getWeight l1 := by
    rw [h1, hA1]
    exact colDichotomy_fix getWeight_setWeight setWeight_ss
      (fill_missing_dimension_post getWeight_setWeight l0)
  have qw1 : colNoFixable getWeight l1 := by
    rw [h1]
    exact fix_invalid_dimension_post getWeight_setWeight A1
  have pw : projFrom getWeight l1 l4 := by
    rw [h4, hA4, h3, hA3, h2, hA2]
    exact projFrom_trans
      (projFrom_fillfix setLength_ss getWeight_setLength l1)
      (projFrom_trans
        (projFrom_fillfix setHeight_ss getWeight_setHeight _)
        (projFrom_fillfix setWidth_ss getWeight_setWidth _))
  have dl2 : colDichotomy getLength l2 := by
    rw [h2, hA2]
    exact colDichotomy_fix getLength_setLength setLength_ss
      (fill_missing_dimension_post getLength_setLength l1)
  have ql2 : colNoFixable getLength l2 := by
    rw [h2]
    exact fix_invalid_dimension_post getLength_setLength A2
  have pl : projFrom getLength l2 l4 := by
    rw [h4, hA4, h3, hA3]
    exact projFrom_trans
      (projFrom_fillfix setHeight_ss getLength_setHeight l2)
      (projFrom_fillfix setWidth_ss getLength_setWidth _)
  have dh3 : colDichotomy getHeight l3 := by
    rw [h3, hA3]
    exact colDichotomy_fix getHeight_setHeight setHeight_ss
      (fill_missing_dimension_post getHeight_setHeight l2)
  have qh3 : colNoFixable getHeight l3 := by
    rw [h3]
    exact fix_invalid_dimension_post getHeight_setHeight A3
  have ph : projFrom getHeight l3 l4 := by
    rw [h4, hA4]
    exact projFrom_fillfix setWidth_ss getHeight_setWidth l3
  have dwd4 : colDichotomy getWidth l4 := by
    rw [h4, hA4]
    exact colDichotomy_fix getWidth_setWidth setWidth_ss
      (fill_missing_dimension_post getWidth_setWidth l3)
  have qwd4 : colNoFixable getWidth l4 := by
    rw [h4]
    exact fix_invalid_dimension_post getWidth_setWidth A4
  exact ⟨c4, colDichotomy_of_projFrom pw dw1, colNoFixable_of_projFrom pw qw1,
    colDichotomy_of_projFrom pl dl2, colNoFixable_of_projFrom pl ql2,
    colDichotomy_of_projFrom ph dh3, colNoFixable_of_projFrom ph qh3,
    dwd4, qwd4⟩

/-- On a table that already satisfies all the products postconditions, the
products part of `clean_missing_values` changes nothing. -/
theorem clean_missing_values_products_eq_self {l : List ProductRow}
    (hcat : catAllSome l)
    (d1 : colDichotomy getWeight l) (q1 : colNoFixable getWeight l)
    (d2 : colDichotomy getLength l) (q2 : colNoFixable getLength l)
    (d3 : colDichotomy getHeight l) (q3 : colNoFixable getHeight l)
    (d4 : colDichotomy getWidth l) (q4 : colNoFixable getWidth l) :
    clean_missing_values_products l = l := by
  unfold clean_missing_values_products
  rw [map_eq_self_of_forall
      (fun r hr => fill_missing_category_eq_self (hcat r hr)),
    fill_eq_self_of_colDichotomy setWeight_id d1,
    fix_eq_self_of_colNoFixable q1,
    fill_eq_self_of_colDichotomy setLength_id d2,
    fix_eq_self_of_colNoFixable q2,
    fill_eq_self_of_colDichotomy setHeight_id d3,
    fix_eq_self_of_colNoFixable q3,
    fill_eq_self_of_colDichotomy setWidth_id d4,
    fix_eq_self_of_colNoFixable q4]

theorem projFrom_dedupExact {γ : Type} (φ : ProductRow → γ)
    (l : List ProductRow) : projFrom φ l (dedupExact l) :=
  projFrom_of_subset (fun _t ht => (dedupByAux_sublist _ _ _).subset ht)

set_option maxHeartbeats 800000 in
theorem cleanProductsPass_fixpoint (l : List ProductRow) :
    cleanProductsPass (cleanProductsPass l) = cleanProductsPass l := by
  obtain ⟨c, d1, q1, d2, q2, d3, q3, d4, q4⟩ :=
    clean_missing_values_products_post l
  unfold cleanProductsPass
  rw [clean_missing_values_products_eq_self
      (catAllSome_of_projFrom (projFrom_dedupExact _ _) c)
      (colDichotomy_of_projFrom (projFrom_dedupExact _ _) d1)
      (colNoFixable_of_projFrom (projFrom_dedupExact _ _) q1)
      (colDichotomy_of_projFrom (projFrom_dedupExact _ _) d2)
      (colNoFixable_of_projFrom (projFrom_dedupExact _ _) q2)
      (colDichotomy_of_projFrom (projFrom_dedupExact _ _) d3)
      (colNoFixable_of_projFrom (projFrom_dedupExact _ _) q3)
      (colDichotomy_of_projFrom (projFrom_dedupExact _ _) d4)
      (colNoFixable_of_projFrom (projFrom_dedupExact _ _) q4),
    dedupExact_idem]

/-! #### Payments: no non-positive payment value survives one pass -/

theorem paymentInvalid_of_pos {r : PaymentRow} {v : ℚ}
    (hv : r.payment_value = some v) (hp : 0 < v) :
    paymentInvalid r = false := by
  unfold paymentInvalid cellInvalid
  rw [hv]
  simp only [decide_eq_false_iff_not, not_le]
  linarith

theorem typePosMedianOf_eq_none_of_no_positive {l : List PaymentRow}
    {t : String}
    (h : ∀ r ∈ l, ∀ v, r.payment_value = some v → v ≤ 0) :
    typePosMedianOf l t = none := by
  have hfe : ((l.filter (fun r => r.payment_type = t)).filterMap
      (·.payment_value)).filter (fun v => 0 < v) = [] := by
    rw [List.filter_eq_nil_iff]
    intro v hv
    obtain ⟨r, hr, hgr⟩ := List.mem_filterMap.mp hv
    have := h r (List.mem_of_mem_filter hr) v hgr
    simp only [decide_eq_true_eq, not_lt]
    linarith
  unfold typePosMedianOf
  rw [hfe, medianQ_nil]

theorem fix_invalid_payments_post (l : List PaymentRow) :
    ∀ s ∈ fix_invalid_payments l, paymentInvalid s = false := by
  intro s hs
  unfold fix_invalid_payments at hs
  split_ifs at hs with hg
  · rw [List.length_eq_zero, List.filter_eq_nil_iff] at hg
    cases hps : paymentInvalid s with
    | false => rfl
    | true => exact absurd hps (hg s hs)
  · by_cases hpos : ∃ r ∈ l, ∃ v, r.payment_value = some v ∧ 0 < v
    · obtain ⟨r0, hr0, v0, hv0, hv0p⟩ := hpos
      have hr0inv : paymentInvalid r0 = false := paymentInvalid_of_pos hv0 hv0p
      have hr0A : r0 ∈ fixPayA l := by
        have heq : (fun r =>
            if paymentInvalid r then
              match typePosMedianOf l r.payment_type with
              | some m => { r with payment_value := some m }
              | none => r
            else r) r0 = r0 := by
          simp [hr0inv]
        exact heq ▸ List.mem_map_of_mem _ hr0
      unfold fixPayB at hs
      split_ifs at hs with hB
      · rw [List.length_eq_zero, List.filter_eq_nil_iff] at hB
        cases hps : paymentInvalid s with
        | false => rfl
        | true => exact absurd hps (hB s hs)
      · have hvmem : v0 ∈ ((fixPayA l).filterMap
            (·.payment_value)).filter (fun v => 0 < v) :=
          List.mem_filter.mpr ⟨List.mem_filterMap.mpr ⟨r0, hr0A, hv0⟩,
            by simpa using hv0p⟩
        obtain ⟨m, hm⟩ := medianQ_isSome (List.ne_nil_of_mem hvmem)
        have hmp : 0 < m := medianQ_pos
          (fun x hx => by simpa using (List.mem_filter.mp hx).2) hm
        rw [hm] at hs
        obtain ⟨r, hr, rfl⟩ := List.mem_map.mp hs
        by_cases hc : paymentInvalid r = true
        · simp only [hc, if_true]
          exact paymentInvalid_of_pos rfl hmp
        · have hc2 : paymentInvalid r = false := by
            cases hps : paymentInvalid r with
            | false => rfl
            | true => exact absurd hps hc
          simp [hc2]
    · push_neg at hpos
      have hA : fixPayA l = l := by
        unfold fixPayA
        apply map_eq_self_of_forall
        intro r hr
        split_ifs with hc
        · rw [typePosMedianOf_eq_none_of_no_positive hpos]
        · rfl
      unfold fixPayB at hs
      rw [hA] at hs
      rw [if_neg hg] at hs
      have hover : medianQ ((l.filterMap
          (·.payment_value)).filter (fun v => 0 < v)) = none := by
        have hfe : (l.filterMap (·.payment_value)).filter
            (fun v => 0 < v) = [] := by
          rw [List.filter_eq_nil_iff]
          intro v hv
          obtain ⟨r, hr, hgr⟩ := List.mem_filterMap.mp hv
          have := hpos r hr v hgr
          simp only [decide_eq_true_eq, not_lt]
          linarith
        rw [hfe, medianQ_nil]
      rw [hover] at hs
      obtain ⟨r, hr, rfl⟩ := List.mem_map.mp hs
      by_cases hc : paymentInvalid r = true
      · simp only [hc, if_true]
        rfl
      · have hc2 : paymentInvalid r = false := by
          cases hps : paymentInvalid r with
          | false => rfl
          | true => exact absurd hps hc
        simp [hc2]

theorem fix_invalid_payments_eq_self_of_no_invalid {l : List PaymentRow}
    (h : ∀ r ∈ l, paymentInvalid r = false) :
    fix_invalid_payments l = l := by
  unfold fix_invalid_payments
  rw [if_pos]
  rw [List.length_eq_zero, List.filter_eq_nil_iff]
  intro r hr
  simp [h r hr]

theorem cleanPaymentsPass_fixpoint (l : List PaymentRow) :
    cleanPaymentsPass (cleanPaymentsPass l) = cleanPaymentsPass l := by
  unfold cleanPaymentsPass
  have hpost : ∀ r ∈ dedupExact (fix_invalid_payments l),
      paymentInvalid r = false :=
    fun r hr => fix_invalid_payments_post l r
      ((dedupByAux_sublist _ _ _).subset hr)
  rw [fix_invalid_payments_eq_self_of_no_invalid hpost, dedupExact_idem]

/-! #### Geolocation: duplicate removal is idempotent -/

theorem cleanGeoPass_fixpoint (g : List GeoRow) :
    cleanGeoPass (cleanGeoPass g) = cleanGeoPass g := by
  have h1 : cleanGeoPass g =
      dedupByAux (fun x : GeoRow => x.zip_code) [] g := by
    show remove_duplicates_geolocation g = _
    rw [remove_duplicates_geolocation_eq_dedupBy]
    rfl
  rw [h1]
  show remove_duplicates_geolocation _ = _
  rw [remove_duplicates_geolocation_eq_dedupBy]
  show dedupByAux (fun x : GeoRow => x.zip_code) [] _ = _
  exact dedupByAux_eq_self (keys_nodup_dedupByAux _ [] g) (by simp)

/-! #### Orders: fill masks vanish after one pass -/

theorem fillDeliveredDate_of_mask_false {r : OrderRow}
    (h : deliveredFillMask r = false) : fillDeliveredDate r = r := by
  simp [fillDeliveredDate, h]

theorem fillCarrierDate_of_mask_false {r : OrderRow}
    (h : carrierFillMask r = false) : fillCarrierDate r = r := by
  simp [fillCarrierDate, h]

theorem deliveredFillMask_after_fill (r : OrderRow) :
    deliveredFillMask (fillDeliveredDate r) = false := by
  unfold fillDeliveredDate
  by_cases h : deliveredFillMask r = true
  · rw [if_pos h]
    unfold deliveredFillMask at h ⊢
    simp only [Bool.and_eq_true, decide_eq_true_eq, Bool.not_eq_true'] at h
    simp [h.2]
  · rw [if_neg h]
    simpa using h

theorem carrierFillMask_after_fill (r : OrderRow) :
    carrierFillMask (fillCarrierDate r) = false := by
  unfold fillCarrierDate
  by_cases h : carrierFillMask r = true
  · rw [if_pos h]
    unfold carrierFillMask at h ⊢
    simp only [Bool.and_eq_true, Bool.not_eq_true'] at h
    cases hc : r.delivered_customer <;>
      simp_all [DVal.dayBefore, DVal.isna]
  · rw [if_neg h]
    simpa using h

theorem deliveredFillMask_fillCarrier (r : OrderRow) :
    deliveredFillMask (fillCarrierDate r) = deliveredFillMask r := by
  unfold fillCarrierDate
  split_ifs <;> rfl

theorem DVal.coerce_eq_self {v : DVal} (h : v ≠ .invalid) :
    v.coerce = v := by
  cases v <;> simp_all [DVal.coerce]

theorem convertOrderRow_eq_self {r : OrderRow} (h : r.noInvalidDates) :
    convertOrderRow r = r := by
  obtain ⟨h1, h2, h3, h4⟩ := h
  unfold convertOrderRow
  rw [DVal.coerce_eq_self h1, DVal.coerce_eq_self h2,
    DVal.coerce_eq_self h3, DVal.coerce_eq_self h4]

theorem noInvalid_fillDelivered {r : OrderRow} (h : r.noInvalidDates) :
    (fillDeliveredDate r).noInvalidDates := by
  obtain ⟨h1, h2, h3, h4⟩ := h
  unfold fillDeliveredDate
  split_ifs <;> exact ⟨h1, by first | exact h4 | exact h2, h3, h4⟩

theorem noInvalid_fillCarrier {r : OrderRow} (h : r.noInvalidDates) :
    (fillCarrierDate r).noInvalidDates := by
  obtain ⟨h1, h2, h3, h4⟩ := h
  unfold fillCarrierDate
  split_ifs with hc
  · refine ⟨h1, h2, ?_, h4⟩
    cases hv : r.delivered_customer <;> simp_all [DVal.dayBefore]
  · exact ⟨h1, h2, h3, h4⟩

theorem clean_missing_values_orders_masks (l : List OrderRow) :
    ∀ r ∈ clean_missing_values_orders l,
      deliveredFillMask r = false ∧ carrierFillMask r = false := by
  intro r hr
  unfold clean_missing_values_orders at hr
  obtain ⟨s, hs, rfl⟩ := List.mem_map.mp hr
  obtain ⟨t, _, rfl⟩ := List.mem_map.mp hs
  refine ⟨?_, carrierFillMask_after_fill _⟩
  rw [deliveredFillMask_fillCarrier]
  exact deliveredFillMask_after_fill _

theorem clean_missing_values_orders_noInvalid {l : List OrderRow}
    (h : ∀ r ∈ l, r.noInvalidDates) :
    ∀ r ∈ clean_missing_values_orders l, r.noInvalidDates := by
  intro r hr
  unfold clean_missing_values_orders at hr
  obtain ⟨s, hs, rfl⟩ := List.mem_map.mp hr
  obtain ⟨t, ht, rfl⟩ := List.mem_map.mp hs
  exact noInvalid_fillCarrier (noInvalid_fillDelivered (h t ht))

theorem clean_missing_values_orders_eq_self {l : List OrderRow}
    (h : ∀ r ∈ l, deliveredFillMask r = false ∧ carrierFillMask r = false) :
    clean_missing_values_orders l = l := by
  unfold clean_missing_values_orders
  rw [map_eq_self_of_forall (fun r hr => fillDeliveredDate_of_mask_false
    (h r hr).1)]
  exact map_eq_self_of_forall (fun r hr => fillCarrierDate_of_mask_false
    (h r hr).2)

theorem cleanOrdersPass_eq_dedup {l : List OrderRow}
    (h : ∀ r ∈ l, r.noInvalidDates) :
    cleanOrdersPass l = dedupExact (clean_missing_values_orders l) := by
  unfold cleanOrdersPass
  apply map_eq_self_of_forall
  intro r hr
  exact convertOrderRow_eq_self (clean_missing_values_orders_noInvalid h r
    ((dedupByAux_sublist _ _ _).subset hr))

theorem cleanOrdersPass_masks {l : List OrderRow}
    (h : ∀ r ∈ l, r.noInvalidDates) :
    ∀ r ∈ cleanOrdersPass l,
      deliveredFillMask r = false ∧ carrierFillMask r = false := by
  rw [cleanOrdersPass_eq_dedup h]
  intro r hr
  exact clean_missing_values_orders_masks l r
    ((dedupByAux_sublist _ _ _).subset hr)

theorem cleanOrdersPass_noInvalid {l : List OrderRow}
    (h : ∀ r ∈ l, r.noInvalidDates) :
    ∀ r ∈ cleanOrdersPass l, r.noInvalidDates := by
  rw [cleanOrdersPass_eq_dedup h]
  intro r hr
  exact clean_missing_values_orders_noInvalid h r
    ((dedupByAux_sublist _ _ _).subset hr)

theorem cleanOrdersPass_fixpoint {l : List OrderRow}
    (h : ∀ r ∈ l, r.noInvalidDates) :
    cleanOrdersPass (cleanOrdersPass l) = cleanOrdersPass l := by
  have hmask := cleanOrdersPass_masks h
  have hni := cleanOrdersPass_noInvalid h
  rw [cleanOrdersPass_eq_dedup hni,
    clean_missing_values_orders_eq_self hmask,
    cleanOrdersPass_eq_dedup h, dedupExact_idem]

theorem count_fills_zero_of_masks {l : List OrderRow}
    (h : ∀ r ∈ l, deliveredFillMask r = false ∧ carrierFillMask r = false) :
    count_delivered_date_fills l = 0 ∧ count_carrier_date_fills l = 0 := by
  constructor
  · unfold count_delivered_date_fills
    rw [List.length_eq_zero, List.filter_eq_nil_iff]
    intro r hr
    simp [(h r hr).1]
  · unfold count_carrier_date_fills
    rw [map_eq_self_of_forall (fun r hr => fillDeliveredDate_of_mask_false
      (h r hr).1)]
    rw [List.length_eq_zero, List.filter_eq_nil_iff]
    intro r hr
    simp [(h r hr).2]

/-- C7 counterexample: a delivered order with a non-missing but unparseable
customer-delivery date and a parseable estimated date.  The first pass fills
nothing (the cell is not NA) but `convert_data_types` coerces it to NaT, so
the second pass performs one delivery-date imputation — the cleaner is not
idempotent on arbitrary inputs. -/
theorem C7_coerced_date_counterexample :
    count_delivered_date_fills (cleanOrdersPass [badOrderRow]) = 1 ∧
    cleanOrdersPass (cleanOrdersPass [badOrderRow]) ≠
      cleanOrdersPass [badOrderRow] := by
  decide

/-- C7 amended: provided every date cell of the orders input parses or is
missing (so type conversion coerces nothing to NaT), a second run of the
cleaning pipeline is inert: it changes no table and performs zero
delivery-date fills, zero carrier-date fills, zero value-changing product
or payment imputations (the per-table passes are fixpoints), and removes
zero further duplicate rows. -/
theorem C7_amended_cleaner_idempotent
    (ords : List OrderRow) (prods : List ProductRow)
    (pays : List PaymentRow) (geos : List GeoRow)
    (h : ∀ r ∈ ords, r.noInvalidDates) :
    cleanOrdersPass (cleanOrdersPass ords) = cleanOrdersPass ords ∧
    count_delivered_date_fills (cleanOrdersPass ords) = 0 ∧
    count_carrier_date_fills (cleanOrdersPass ords) = 0 ∧
    cleanProductsPass (cleanProductsPass prods) = cleanProductsPass prods ∧
    cleanPaymentsPass (cleanPaymentsPass pays) = cleanPaymentsPass pays ∧
    cleanGeoPass (cleanGeoPass geos) = cleanGeoPass geos := by
  obtain ⟨hc1, hc2⟩ := count_fills_zero_of_masks (cleanOrdersPass_masks h)
  exact ⟨cleanOrdersPass_fixpoint h, hc1, hc2,
    cleanProductsPass_fixpoint prods, cleanPaymentsPass_fixpoint pays,
    cleanGeoPass_fixpoint geos⟩

/-- Witness for the amended C7 on concrete fixtures exercising the
delivery-date fill, the category/dimension imputations, the payment fix and
the zip-code dedup. -/
theorem C7_amended_cleaner_idempotent_witness :
    (∀ r ∈ ordersFixture, r.noInvalidDates) ∧
    cleanOrdersPass (cleanOrdersPass ordersFixture) =
      cleanOrdersPass ordersFixture ∧
    count_delivered_date_fills (cleanOrdersPass ordersFixture) = 0 ∧
    cleanProductsPass (cleanProductsPass productsFixture) =
      cleanProductsPass productsFixture ∧
    cleanPaymentsPass (cleanPaymentsPass paymentsFixture) =
      cleanPaymentsPass paymentsFixture ∧
    cleanGeoPass (cleanGeoPass geoFixture) = cleanGeoPass geoFixture := by
  have h : ∀ r ∈ ordersFixture, r.noInvalidDates := by decide
  have H := C7_amended_cleaner_idempotent ordersFixture productsFixture
    paymentsFixture geoFixture h
  exact ⟨h, H.1, H.2.1, H.2.2.2.1, H.2.2.2.2.1, H.2.2.2.2.2⟩

end Ecom
